import Mathlib

/-!
Verification development for the procedural tree generator
(`packages/tree-engine` and `tree-rs`).

Modelling conventions.

Scalars: the Rust code computes in `f32`.  We model `f32` values by exact
rationals (`ℚ`): every arithmetic operation of the source is translated to the
corresponding exact operation, and `f32` literals are read as the rational
they denote.  The `f32` constant `std::f32::consts::PI` is modelled by the
exact value of that constant, `13176795 / 4194304`.

Transcendental and normalizing primitives (`sqrt`, `sin`, `cos`, and the
`glam` quaternion constructors / application, which are irrational-valued)
are kept uninterpreted: they are fields of a `GeomOracle` parameter.  All
structural theorems below are proved for every oracle, hence in particular
for the true `f32` semantics of these primitives.  The single claim whose
content is genuinely about the value of `sqrt` (area conservation of
`generate_trunk_rings`) is settled against a real-number (`ℝ`) translation
of that function using `Real.sqrt`.

Randomness: the Rust code draws from one `SmallRng` stream threaded by
mutable reference through the whole generation pass.  We model the stream as
a pair of arbitrary sequences (one backing the floating draws, one backing
the integer draws) together with a counter of draws consumed; each
`gen_range(lo..=hi)` call reads the next element, clamped into `[lo, hi]`,
and advances the counter.  Every actual execution of the Rust code
corresponds to some choice of these sequences, so properties quantified over
all streams hold of the real generator.

Recursion: the Rust recursions terminate through their numeric stop
conditions.  The Lean translations take an explicit `fuel` argument and
return the state unchanged when it runs out; all invariants proved below are
quantified over every `fuel`, hence they apply to the terminating runs of
the source.
-/

/-- Exact value of the `f32` constant `std::f32::consts::PI`. -/
def pi32 : ℚ := 13176795 / 4194304

/-- Rust `f32::clamp`: `self.max(lo).min(hi)`. -/
def fclamp (x lo hi : ℚ) : ℚ := min (max x lo) hi

/-- Rust `f32::to_radians`: multiply by `π / 180` (with the `f32` π). -/
def to_radians (x : ℚ) : ℚ := x * (pi32 / 180)

/-- Model of `glam::Vec2` with exact rational coordinates. -/
structure Vec2 where
  x : ℚ
  y : ℚ
deriving DecidableEq

/-- Model of `glam::Vec3` with exact rational coordinates. -/
structure Vec3 where
  x : ℚ
  y : ℚ
  z : ℚ
deriving DecidableEq

/-- Model of `glam::Quat` with exact rational components. -/
structure Quat where
  x : ℚ
  y : ℚ
  z : ℚ
  w : ℚ
deriving DecidableEq

instance : Inhabited Vec2 := ⟨⟨0, 0⟩⟩

instance : Inhabited Vec3 := ⟨⟨0, 0, 0⟩⟩

instance : Inhabited Quat := ⟨⟨0, 0, 0, 1⟩⟩

def Vec2.add (a b : Vec2) : Vec2 := ⟨a.x + b.x, a.y + b.y⟩

def Vec2.sub (a b : Vec2) : Vec2 := ⟨a.x - b.x, a.y - b.y⟩

def Vec2.smul (c : ℚ) (a : Vec2) : Vec2 := ⟨c * a.x, c * a.y⟩

def Vec2.dot (a b : Vec2) : ℚ := a.x * b.x + a.y * b.y

def Vec3.add (a b : Vec3) : Vec3 := ⟨a.x + b.x, a.y + b.y, a.z + b.z⟩

def Vec3.sub (a b : Vec3) : Vec3 := ⟨a.x - b.x, a.y - b.y, a.z - b.z⟩

def Vec3.smul (c : ℚ) (a : Vec3) : Vec3 := ⟨c * a.x, c * a.y, c * a.z⟩

def Vec3.dot (a b : Vec3) : ℚ := a.x * b.x + a.y * b.y + a.z * b.z

/-- Exact cross product, as in `glam::Vec3::cross`. -/
def Vec3.cross (a b : Vec3) : Vec3 :=
  ⟨a.y * b.z - a.z * b.y, a.z * b.x - a.x * b.z, a.x * b.y - a.y * b.x⟩

def vec3Y : Vec3 := ⟨0, 1, 0⟩

def vec3X : Vec3 := ⟨1, 0, 0⟩

/-- Uninterpreted models of the irrational-valued primitives used by the
source: `f32::sqrt`, `f32::sin`, `f32::cos`, and the `glam` quaternion
operations `Quat::from_axis_angle`, `Quat::from_rotation_arc` and
quaternion-times-vector.  All structural theorems hold for every
interpretation of these fields, in particular for the true `f32` one. -/
structure GeomOracle where
  sqrt : ℚ → ℚ
  sin : ℚ → ℚ
  cos : ℚ → ℚ
  from_axis_angle : Vec3 → ℚ → Quat
  from_rotation_arc : Vec3 → Vec3 → Quat
  quat_mul_vec3 : Quat → Vec3 → Vec3

/-- Model of `glam::Vec3::length`: square root of the dot product. -/
def vlength (o : GeomOracle) (v : Vec3) : ℚ := o.sqrt (v.dot v)

/-- Model of `glam::Vec2::length`. -/
def vlength2 (o : GeomOracle) (v : Vec2) : ℚ := o.sqrt (v.dot v)

/-- Model of `glam::Vec3::normalize`: scale by the reciprocal length.
In `ℚ` a zero length yields the zero vector (a model artifact for inputs on
which the source would produce NaNs). -/
def vnormalize (o : GeomOracle) (v : Vec3) : Vec3 := v.smul (1 / vlength o v)

/-- Model of the `SmallRng` stream: `floats` backs the floating-point
`gen_range` draws, `ints` backs the integer ones, and `k` counts the draws
consumed so far.  Each draw reads the next element of the corresponding
sequence, clamped into the requested range, and advances `k`. -/
structure RngState where
  floats : ℕ → ℚ
  ints : ℕ → ℕ
  k : ℕ

/-- Value of the next `rng.gen_range(lo..=hi)` floating draw. -/
def RngState.next_f (r : RngState) (lo hi : ℚ) : ℚ := fclamp (r.floats r.k) lo hi

/-- Value of the next `rng.gen_range(lo..=hi)` integer draw. -/
def RngState.next_n (r : RngState) (lo hi : ℕ) : ℕ := min (max (r.ints r.k) lo) hi

/-- Advance the stream past one consumed draw. -/
def RngState.bump (r : RngState) : RngState := ⟨r.floats, r.ints, r.k + 1⟩

/-! Parameter bundle (`packages/tree-engine/src/core/parameters.rs`). -/

/-- Model of `GeneralParams`. -/
structure GeneralParams where
  seed : ℕ
  max_depth : ℕ
deriving DecidableEq

/-- Model of `TrunkParams`. -/
structure TrunkParams where
  height : ℚ
  buttressing : ℚ
  split_height : ℚ
  segment_length : ℚ
  size : ℚ
  ring_spread : ℚ
  segment_length_variation : ℚ
deriving DecidableEq

/-- Model of `BranchingParams`. -/
structure BranchingParams where
  angle_min : ℚ
  angle_max : ℚ
  bend_angle_min : ℚ
  bend_angle_max : ℚ
  frequency_min : ℕ
  frequency_max : ℕ
  radius_taper : ℚ
  azimuth_variation : ℚ
  max_reach : ℚ
deriving DecidableEq

/-- Model of `RootParams`. -/
structure RootParams where
  enable : Bool
  depth : ℚ
  spread : ℚ
  density : ℕ
  segment_length : ℚ
deriving DecidableEq

/-- Model of `TwigParams`. -/
structure TwigParams where
  enable : Bool
  density : ℚ
  scale : ℚ
  angle_variation : ℚ
deriving DecidableEq

/-- Model of `TreeParameters`. -/
structure TreeParameters where
  general : GeneralParams
  trunk : TrunkParams
  branching : BranchingParams
  roots : RootParams
  twigs : TwigParams
deriving DecidableEq

/-! Data model shared by the two crates (`tree-rs/src/tree_structure.rs`;
the engine crate's `structure` module declares the same variants, as
witnessed by its construction and match sites). -/

/-- Model of `RootType`. -/
inductive RootType where
  | TapRoot : RootType
  | LateralRoot : RootType
  | FeederRoot : RootType
deriving DecidableEq

/-- Model of `RingType`. -/
inductive RingType where
  | MainTrunk : RingType
  | SideBranch : RingType
  | Root : RootType → RingType
deriving DecidableEq

/-- Model of `TwigType`. -/
inductive TwigType where
  | LeafCluster : TwigType
  | SmallBranch : TwigType
  | BranchTip : TwigType
deriving DecidableEq

/-- Model of `Twig`. -/
structure Twig where
  position : Vec3
  orientation : Quat
  scale : ℚ
  twig_type : TwigType
deriving DecidableEq

/-- Model of `TwigGenerationParams`. -/
structure TwigGenerationParams where
  density : ℚ
  scale_min : ℚ
  scale_max : ℚ
  angle_variation : ℚ
  attachment_threshold : ℚ
deriving DecidableEq

namespace Engine

/-- Model of the engine crate's `ComponentRing` (fields as constructed in
`trunk/rings.rs` and `branching/mod.rs`). -/
structure ComponentRing where
  offset : Vec2
  radius : ℚ
  ring_type : RingType
deriving DecidableEq

/-- Model of the engine crate's `BranchCrossSection` (fields as constructed
in `trunk/mod.rs`, `branching/mod.rs` and `roots/mod.rs`). -/
structure BranchCrossSection where
  center : Vec3
  orientation : Quat
  depth : ℕ
  component_rings : List ComponentRing
  children_indices : List ℕ
deriving DecidableEq

instance : Inhabited ComponentRing := ⟨⟨default, 0, RingType.MainTrunk⟩⟩

instance : Inhabited BranchCrossSection := ⟨⟨default, default, 0, [], []⟩⟩

/-- Model of the engine crate's `TreeStructure`: the growable cross-section
list and the twig list. -/
structure TreeStructure where
  cross_sections : List BranchCrossSection
  twigs : List Twig
deriving DecidableEq

/-! Ring generator (`packages/tree-engine/src/trunk/rings.rs`). -/

/-- Ring count derived from buttressing, as computed at the start of
`generate_trunk_rings`: `1` if `buttressing < 0.7`, else
`((buttressing - 0.5) * 3.0 + 1.0).max(1.0) as u32` (the `as u32` cast
truncates toward zero, i.e. takes the floor of the nonnegative value). -/
def ring_count_of (buttressing : ℚ) : ℕ :=
  if buttressing < 7/10 then 1
  else (⌊max ((buttressing - 1/2) * 3 + 1) 1⌋).toNat

/-- Model of `RingGenerator::generate_trunk_rings`.  The ring radii involve
`f32::sqrt`, taken from the oracle. -/
def generate_trunk_rings (o : GeomOracle) (params : TrunkParams) (height : ℚ) :
    List ComponentRing :=
  let ring_count := ring_count_of params.buttressing
  let base_trunk_radius := 1/2 * params.size
  let target_area := pi32 * base_trunk_radius * base_trunk_radius
  if ring_count = 1 then
    [⟨⟨0, 0⟩, base_trunk_radius, RingType.MainTrunk⟩]
  else
    let area_per_ring := target_area / (ring_count : ℚ)
    let individual_ring_radius := o.sqrt (area_per_ring / pi32)
    let outer_rings := ring_count - 1
    let height_factor :=
      if 0 < params.height then
        1 - fclamp (height / params.height) 0 1 * (3/4)
      else 1
    let spread_distance := base_trunk_radius * params.ring_spread * height_factor
    ⟨⟨0, 0⟩, individual_ring_radius, RingType.MainTrunk⟩ ::
      (List.range outer_rings).map (fun i =>
        let angle := ((i : ℚ) / (outer_rings : ℚ)) * 2 * pi32
        ⟨⟨o.cos angle * spread_distance, o.sin angle * spread_distance⟩,
          individual_ring_radius, RingType.SideBranch⟩)

/-- Model of `RingGenerator::create_child_ring_from_parent`: copy offset and
type, scale the radius by the taper factor. -/
def create_child_ring_from_parent (parent_ring : ComponentRing) (taper : ℚ) :
    ComponentRing :=
  ⟨parent_ring.offset, parent_ring.radius * taper, parent_ring.ring_type⟩

/-! Trunk system (`packages/tree-engine/src/trunk/mod.rs`). -/

/-- Model of `TrunkSystem::generate`: clear the cross-section list and push
the base cross-section built from the trunk rings at height `0.0`. -/
def trunk_system_generate (o : GeomOracle) (params : TrunkParams)
    (tree : TreeStructure) : TreeStructure :=
  { tree with cross_sections :=
      [⟨⟨0, 0, 0⟩, default, 0, generate_trunk_rings o params 0, []⟩] }

end Engine

namespace Engine

/-! Trunk/branch growth engine (`packages/tree-engine/src/branching/mod.rs`). -/

/-- Per-depth segment cap (`branching/mod.rs:65-75`).  For depth 0-2 the cap
is `(ceil(height / segment_length) as u32 + 10).max(20)`; the `as u32` cast
truncates toward zero, clamping negatives to `0`. -/
def max_segments_for_depth (tp : TrunkParams) (depth : ℕ) : ℕ :=
  if depth ≤ 2 then
    let min_segments_for_height := (⌈tp.height / tp.segment_length⌉).toNat
    max (min_segments_for_height + 10) 20
  else if depth ≤ 5 then 8
  else if depth ≤ 8 then 4
  else if depth ≤ 12 then 3
  else if depth ≤ 16 then 2
  else 1

/-- Bend reduction factor (`branching/mod.rs:103-108`). -/
def bend_reduction_factor (depth : ℕ) : ℚ :=
  if depth ≤ 1 then 1/10
  else if depth ≤ 3 then 3/10
  else if depth ≤ 5 then 6/10
  else 1

/-- Child rings of the continue-as-trunk path (`branching/mod.rs:146-175`):
every parent ring is tapered by the common `segment_taper`, and at depth 0
trunk/side rings additionally have their offset scaled by the height-based
flare factor. -/
def continue_child_rings (bp : BranchingParams) (tp : TrunkParams) (depth : ℕ)
    (next_center : Vec3) (current_rings : List ComponentRing) :
    List ComponentRing :=
  let ring_count : ℚ := (current_rings.length : ℚ)
  let buttressing_factor : ℚ := if 2 < ring_count then 1/2 else 1
  let base_taper_factor : ℚ := if next_center.y < tp.height then 5/100 else 4/10
  let segment_taper_factor := base_taper_factor * buttressing_factor
  let segment_taper := 1 - (1 - bp.radius_taper) * segment_taper_factor
  current_rings.map (fun parent_ring =>
    let child_ring := create_child_ring_from_parent parent_ring segment_taper
    if (child_ring.ring_type = RingType.MainTrunk ∨
        child_ring.ring_type = RingType.SideBranch) ∧ depth = 0 then
      let height_factor :=
        if 0 < tp.height then
          1 - fclamp (next_center.y / tp.height) 0 1 * (3/4)
        else 1
      { child_ring with offset := child_ring.offset.smul height_factor }
    else child_ring)

/-- Ring split of the branch-creation step (`branching/mod.rs:251-282`).
The source iterates over the enumerated parent rings: with a single parent
ring both sides get a tapered copy of it; with several, the rings at index
`i < n - 1` continue as trunk and the last ring alone becomes the branch. -/
def split_rings_for_branch (segment_taper : ℚ)
    (parent_rings : List ComponentRing) :
    List ComponentRing × List ComponentRing :=
  if parent_rings.length = 1 then
    (parent_rings.map (fun r => create_child_ring_from_parent r (segment_taper * (95/100))),
     parent_rings.map (fun r => create_child_ring_from_parent r (segment_taper * (8/10))))
  else
    ((parent_rings.take (parent_rings.length - 1)).map
       (fun r => create_child_ring_from_parent r (segment_taper * (95/100))),
     (parent_rings.drop (parent_rings.length - 1)).map
       (fun r => create_child_ring_from_parent r segment_taper))

/-- State update for `cross_sections[i].children_indices.push(c)`. -/
def push_child (cs : List BranchCrossSection) (i c : ℕ) :
    List BranchCrossSection :=
  cs.set i { cs.getD i default with
             children_indices := (cs.getD i default).children_indices ++ [c] }

/-- Non-recursive part of `create_coordinated_branches`
(`branching/mod.rs:206-309`): draw the branch direction, split the rings,
append the trunk-continuation and branch cross-sections as the two children
of the parent.  The two trailing recursive calls of the source function are
performed by the caller (`generate_coordinated_recursive` below), which
receives the two new indices and the two directions.  Returns
`(state, rng, trunk_idx, branch_idx, branch_direction)`. -/
def create_coordinated_branches_core (o : GeomOracle) (bp : BranchingParams)
    (tp : TrunkParams) (cs : List BranchCrossSection)
    (parent_cross_section_index : ℕ) (parent_rings : List ComponentRing)
    (center main_direction : Vec3) (depth : ℕ) (rng : RngState) :
    List BranchCrossSection × RngState × ℕ × ℕ × Vec3 :=
  let angle_min := min bp.angle_min bp.angle_max
  let angle_max := max bp.angle_max bp.angle_min
  let branch_angle := to_radians (rng.next_f angle_min angle_max)
  let rng1 := rng.bump
  let up_component := vec3Y
  let perpendicular :=
    if 1/10 < vlength o (main_direction.cross up_component) then
      vnormalize o (main_direction.cross up_component)
    else vec3X
  let planar_rotation := o.from_axis_angle perpendicular branch_angle
  let planar_direction := vnormalize o (o.quat_mul_vec3 planar_rotation main_direction)
  let bd := if 0 < bp.azimuth_variation then
      let azimuth_angle := rng1.next_f 0 (2 * pi32) * bp.azimuth_variation
      let azimuth_rotation := o.from_axis_angle main_direction azimuth_angle
      (vnormalize o (o.quat_mul_vec3 azimuth_rotation planar_direction), rng1.bump)
    else (planar_direction, rng1)
  let branch_direction := bd.1
  let rng2 := bd.2
  let segment_taper := 1 - (1 - bp.radius_taper) * (15/100)
  let rings_pair := split_rings_for_branch segment_taper parent_rings
  let trunk_cross_section : BranchCrossSection :=
    ⟨center.add (main_direction.smul tp.segment_length),
     o.from_rotation_arc vec3Y main_direction, depth + 1, rings_pair.1, []⟩
  let branch_cross_section : BranchCrossSection :=
    ⟨center.add (branch_direction.smul tp.segment_length),
     o.from_rotation_arc vec3Y branch_direction, depth + 1, rings_pair.2, []⟩
  let trunk_cs_idx := cs.length
  let branch_cs_idx := trunk_cs_idx + 1
  let cs1 := push_child (push_child cs parent_cross_section_index trunk_cs_idx)
      parent_cross_section_index branch_cs_idx
  (cs1 ++ [trunk_cross_section, branch_cross_section],
   rng2, trunk_cs_idx, branch_cs_idx, branch_direction)

/-- Model of `generate_coordinated_recursive` (`branching/mod.rs:47-204`),
with an explicit fuel argument standing in for the stack of the terminating
Rust recursion.  The hard stops, direction perturbation, segment jitter,
branch decision, and the continue-as-trunk child construction follow the
source line by line; the branch path appends through
`create_coordinated_branches_core` and then performs the source's two
recursive calls (trunk continuation first, then the branch). -/
def generate_coordinated_recursive (o : GeomOracle) (bp : BranchingParams)
    (tp : TrunkParams) (gp : GeneralParams) :
    ℕ → List BranchCrossSection → ℕ → Vec3 → ℕ → ℕ → ℕ → RngState →
    List BranchCrossSection × RngState
  | 0, cross_sections, _, _, _, _, _, rng => (cross_sections, rng)
  | fuel + 1, cross_sections, current_cross_section_index, growth_direction,
      depth, segments_since_branch, segments_at_current_depth, rng =>
    if gp.max_depth ≤ depth then (cross_sections, rng)
    else if max_segments_for_depth tp depth ≤ segments_at_current_depth then
      (cross_sections, rng)
    else
      let current_cross_section := cross_sections.getD current_cross_section_index default
      let current_center := current_cross_section.center
      let current_rings := current_cross_section.component_rings
      if current_rings = [] then (cross_sections, rng)
      else
        let total_area := (current_rings.map (fun r => pi32 * r.radius * r.radius)).sum
        let effective_trunk_radius := o.sqrt (total_area / pi32)
        if effective_trunk_radius < 5/1000 then (cross_sections, rng)
        else if bp.max_reach * (3/2) < vlength o current_center then
          (cross_sections, rng)
        else
          let brf := bend_reduction_factor depth
          let bend_min := min bp.bend_angle_min bp.bend_angle_max * brf
          let bend_max := max bp.bend_angle_max bp.bend_angle_min * brf
          let bend_angle := to_radians (rng.next_f bend_min bend_max)
          let rng1 := rng.bump
          let ax := rng1.next_f (-1) 1
          let rng2 := rng1.bump
          let az := rng2.next_f (-1) 1
          let rng3 := rng2.bump
          let bend_axis := vnormalize o ⟨ax, 0, az⟩
          let bend_rotation := o.from_axis_angle bend_axis bend_angle
          let bent_direction := vnormalize o (o.quat_mul_vec3 bend_rotation growth_direction)
          let variation_factor := 1 + rng3.next_f (-1) 1 * tp.segment_length_variation
          let rng4 := rng3.bump
          let varied_segment_length := tp.segment_length * max variation_factor (1/10)
          let next_center := current_center.add (bent_direction.smul varied_segment_length)
          let next_height := next_center.y
          let freq_min := max bp.frequency_min 1
          let freq_max := max bp.frequency_max freq_min
          let segment_branch_ready := rng4.next_n freq_min freq_max ≤ segments_since_branch
          let rng5 := rng4.bump
          let height_allows_branching := tp.split_height ≤ next_height
          let should_branch := segment_branch_ready ∧ height_allows_branching ∧
            depth < gp.max_depth - 1
          if should_branch then
            let res := create_coordinated_branches_core o bp tp cross_sections
              current_cross_section_index current_rings next_center bent_direction
              depth rng5
            let after_trunk := generate_coordinated_recursive o bp tp gp fuel
              res.1 res.2.2.1 bent_direction (depth + 1) 0 0 res.2.1
            generate_coordinated_recursive o bp tp gp fuel
              after_trunk.1 res.2.2.2.1 res.2.2.2.2 (depth + 1) 0 0 after_trunk.2
          else
            let child_rings := continue_child_rings bp tp depth next_center current_rings
            let new_cross_section : BranchCrossSection :=
              ⟨next_center, o.from_rotation_arc vec3Y bent_direction, depth,
               child_rings, []⟩
            let new_cross_section_index := cross_sections.length
            let cs1 := push_child cross_sections current_cross_section_index
              new_cross_section_index ++ [new_cross_section]
            generate_coordinated_recursive o bp tp gp fuel
              cs1 new_cross_section_index bent_direction depth
              (segments_since_branch + 1) (segments_at_current_depth + 1) rng5

/-- Model of `BranchingSystem::generate_branches` (`branching/mod.rs:22-45`):
start the coordinated recursion from the root cross-section with upward
growth direction and zeroed counters. -/
def generate_branches (o : GeomOracle) (fuel : ℕ) (bp : BranchingParams)
    (tp : TrunkParams) (gp : GeneralParams) (tree : TreeStructure)
    (rng : RngState) : TreeStructure × RngState :=
  if tree.cross_sections = [] then (tree, rng)
  else
    let res := generate_coordinated_recursive o bp tp gp fuel
      tree.cross_sections 0 ⟨0, 1, 0⟩ 0 0 0 rng
    ({ tree with cross_sections := res.1 }, res.2)

end Engine

namespace Engine

/-! Root system (`packages/tree-engine/src/roots/mod.rs`). -/

/-- One iteration of the root-segment loop of `RootSystem::generate`
(`roots/mod.rs:31-61`): build the tapered root cross-section for `segment`,
link it (to the base for segment 0, to the previously appended cross-section
otherwise) and append it.  All appended root cross-sections carry depth 0. -/
def root_segment_step (base_center : Vec3) (base_rings : List ComponentRing)
    (params : RootParams) (cs : List BranchCrossSection) (segment : ℕ) :
    List BranchCrossSection :=
  let segment_height := ((segment : ℚ) + 1) * params.segment_length
  let root_center := base_center.sub ⟨0, segment_height, 0⟩
  let taper_factor := 1 - (segment : ℚ) * (1/10)
  let root_rings := base_rings.map (fun trunk_ring =>
    (⟨trunk_ring.offset, trunk_ring.radius * taper_factor, RingType.MainTrunk⟩ :
      ComponentRing))
  let root_cross_section : BranchCrossSection :=
    ⟨root_center, default, 0, root_rings, []⟩
  let root_index := cs.length
  let cs1 := if segment = 0 then push_child cs 0 root_index
             else push_child cs (root_index - 1) root_index
  cs1 ++ [root_cross_section]

/-- Model of `RootSystem::generate` (`roots/mod.rs:18-62`): if roots are
enabled, run the 3-segment loop starting from the base cross-section's
center and rings (both read once, before the loop).  The engine's root
system consumes no randomness (its `rng` argument is unused in the source). -/
def root_system_generate (params : RootParams) (tree : TreeStructure) :
    TreeStructure :=
  if params.enable = false then tree
  else
    let base_center := (tree.cross_sections.getD 0 default).center
    let base_rings := (tree.cross_sections.getD 0 default).component_rings
    let root_segments := 3
    let new_cross_sections := (List.range root_segments).foldl
      (root_segment_step base_center base_rings params) tree.cross_sections
    { tree with cross_sections := new_cross_sections }

/-! Twig placement (`packages/tree-engine/src/twigs/placement.rs` and
`twigs/mod.rs`). -/

/-- Model of `TwigPlacer::generate_twigs_at_position`
(`placement.rs:12-72`).  The `as u32` cast of the drawn twig count truncates
toward zero; `rng.gen_range(a..b)` half-open draws are modelled like the
inclusive ones (clamped into the range). -/
def generate_twigs_at_position (o : GeomOracle) (twigs : List Twig)
    (position branch_direction : Vec3) (branch_radius : ℚ)
    (twig_params : TwigGenerationParams) (rng : RngState) :
    List Twig × RngState :=
  let base_twig_count := twig_params.density * 2
  let tc_draw := rng.next_f (base_twig_count * (1/2)) (base_twig_count * (3/2))
  let rng0 := rng.bump
  let twig_count := min (max (⌊tc_draw⌋.toNat) 1) 12
  (List.range twig_count).foldl (fun st i =>
    let twigs0 := st.1
    let r0 := st.2
    let angle_pair :=
      if twig_count = 1 then (r0.next_f 0 (2 * pi32), r0.bump)
      else (((i : ℚ) / (twig_count : ℚ)) * 2 * pi32 + r0.next_f (-(1/2)) (1/2),
            r0.bump)
    let angle := angle_pair.1
    let r1 := angle_pair.2
    let up := if |branch_direction.y| < 9/10 then vec3Y else vec3X
    let right := vnormalize o (branch_direction.cross up)
    let forward := vnormalize o (right.cross branch_direction)
    let variation := twig_params.angle_variation * r1.next_f (-1) 1
    let r2 := r1.bump
    let twig_angle := to_radians 45 + variation * to_radians 30
    let twig_direction := vnormalize o
      ((branch_direction.smul (o.cos twig_angle)).add
        (((right.smul (o.cos angle)).add (forward.smul (o.sin angle))).smul
          (o.sin twig_angle)))
    let scale := r2.next_f twig_params.scale_min twig_params.scale_max
    let r3 := r2.bump
    let twig_type :=
      if branch_radius < 2/100 then TwigType.LeafCluster
      else if branch_radius < 4/100 then TwigType.BranchTip
      else TwigType.SmallBranch
    let twig : Twig :=
      ⟨position.add (twig_direction.smul (branch_radius * (1/2))),
       o.from_rotation_arc vec3Y twig_direction, scale, twig_type⟩
    (twigs0 ++ [twig], r3)) (twigs, rng0)

/-- Body of the inner per-ring loop of `TwigSystem::generate`
(`twigs/mod.rs:51-85`): root rings are skipped; otherwise the two
radius gates are evaluated with the source's short-circuit `&&` (the random
draw happens only when the preceding radius conditions hold), and a
qualifying ring spawns twigs at the cross-section's center. -/
def twig_ring_visit (o : GeomOracle) (twig_params : TwigGenerationParams)
    (base_center : Vec3) (i : ℕ) (cross_section : BranchCrossSection)
    (ring : ComponentRing) (st : List Twig × RngState) :
    List Twig × RngState :=
  match ring.ring_type with
  | RingType.Root _ => st
  | _ =>
    let twigs := st.1
    let rng := st.2
    let density_chance := min (twig_params.density * (3/10)) 1
    let gate1 :=
      if ring.radius ≤ twig_params.attachment_threshold then
        (decide (rng.next_f 0 1 < density_chance), rng.bump)
      else (false, rng)
    let should_have_twigs := gate1.1
    let rng1 := gate1.2
    let gate2 :=
      if twig_params.attachment_threshold < ring.radius ∧
         ring.radius ≤ twig_params.attachment_threshold * 2 then
        (decide (rng1.next_f 0 1 < twig_params.density * (1/10)), rng1.bump)
      else (false, rng1)
    let is_medium_branch_with_random_twigs := gate2.1
    let rng2 := gate2.2
    if should_have_twigs = true ∨ is_medium_branch_with_random_twigs = true then
      let branch_direction :=
        if 0 < i then vnormalize o (cross_section.center.sub base_center)
        else vec3Y
      generate_twigs_at_position o twigs cross_section.center branch_direction
        ring.radius twig_params rng2
    else (twigs, rng2)

/-- Model of `TwigSystem::generate` (`twigs/mod.rs:26-87`): when enabled,
clear the twig list and scan every ring of every cross-section with
`twig_ring_visit`.  The cross-section list itself is never modified. -/
def twig_system_generate (o : GeomOracle) (params : TwigParams)
    (tree : TreeStructure) (rng : RngState) : TreeStructure × RngState :=
  if params.enable = false then (tree, rng)
  else
    let twig_params : TwigGenerationParams :=
      ⟨params.density, params.scale * (1/2), params.scale * (3/2),
       params.angle_variation, 5/100⟩
    let base_center := (tree.cross_sections.getD 0 default).center
    let res := tree.cross_sections.enum.foldl (fun st pair =>
        pair.2.component_rings.foldl
          (fun st2 ring => twig_ring_visit o twig_params base_center pair.1 pair.2 ring st2)
          st)
      (([] : List Twig), rng)
    ({ tree with twigs := res.1 }, res.2)

/-! Orchestrator (`packages/tree-engine/src/core/generator.rs` and
`core/mod.rs`).  `GenerationContext::new` seeds one `SmallRng` from
`params.general.seed`; we model the seeding function `SmallRng::seed_from_u64`
as an arbitrary map `seed_rng` from seeds to streams. -/

/-- Model of `ModularTreeGenerator::generate_tree` (`generator.rs:25-48`):
trunk base, then branching, then roots, then twigs, all threading the single
RNG stream seeded once from `params.general.seed`. -/
def generate_tree (o : GeomOracle) (fuel : ℕ) (seed_rng : ℕ → RngState)
    (params : TreeParameters) : TreeStructure :=
  let tree0 : TreeStructure := ⟨[], []⟩
  let rng0 := seed_rng params.general.seed
  let tree1 := trunk_system_generate o params.trunk tree0
  let res2 := generate_branches o fuel params.branching params.trunk
    params.general tree1 rng0
  let tree3 := root_system_generate params.roots res2.1
  (twig_system_generate o params.twigs tree3 res2.2).1

/-! Read accessors of the embedded `TreeObject`
(`packages/tree-engine/src/lib.rs:136-190`; the `tree-rs` crate exposes the
identical accessors in `tree-rs/src/lib.rs:1226-1280`). -/

/-- Model of `wasm::Vector3d`. -/
structure Vector3d where
  x : ℚ
  y : ℚ
  z : ℚ
deriving DecidableEq

/-- Model of `TreeObject::rings_count`. -/
def rings_count (tree : TreeStructure) : ℕ := tree.cross_sections.length

/-- Model of `TreeObject::ring_center`. -/
def ring_center (tree : TreeStructure) (index : ℕ) : Option Vector3d :=
  (tree.cross_sections.get? index).map (fun cross_section =>
    ⟨cross_section.center.x, cross_section.center.y, cross_section.center.z⟩)

/-- Model of `TreeObject::ring_radius`. -/
def ring_radius (tree : TreeStructure) (index : ℕ) : Option ℚ :=
  (tree.cross_sections.get? index).bind (fun cross_section =>
    cross_section.component_rings.head?.map (fun ring => ring.radius))

/-- Model of `TreeObject::twigs_count`. -/
def twigs_count (tree : TreeStructure) : ℕ := tree.twigs.length

/-- Model of `TreeObject::twig_position`. -/
def twig_position (tree : TreeStructure) (index : ℕ) : Option Vector3d :=
  (tree.twigs.get? index).map (fun twig =>
    ⟨twig.position.x, twig.position.y, twig.position.z⟩)

/-- Model of `TreeObject::twig_orientation_x`. -/
def twig_orientation_x (tree : TreeStructure) (index : ℕ) : Option ℚ :=
  (tree.twigs.get? index).map (fun twig => twig.orientation.x)

/-- Model of `TreeObject::twig_orientation_y`. -/
def twig_orientation_y (tree : TreeStructure) (index : ℕ) : Option ℚ :=
  (tree.twigs.get? index).map (fun twig => twig.orientation.y)

/-- Model of `TreeObject::twig_orientation_z`. -/
def twig_orientation_z (tree : TreeStructure) (index : ℕ) : Option ℚ :=
  (tree.twigs.get? index).map (fun twig => twig.orientation.z)

/-- Model of `TreeObject::twig_orientation_w`. -/
def twig_orientation_w (tree : TreeStructure) (index : ℕ) : Option ℚ :=
  (tree.twigs.get? index).map (fun twig => twig.orientation.w)

/-- Model of `TreeObject::twig_scale`. -/
def twig_scale (tree : TreeStructure) (index : ℕ) : Option ℚ :=
  (tree.twigs.get? index).map (fun twig => twig.scale)

/-- Model of `TreeObject::twig_type`. -/
def twig_type (tree : TreeStructure) (index : ℕ) : Option String :=
  (tree.twigs.get? index).map (fun twig =>
    match twig.twig_type with
    | TwigType.LeafCluster => "LeafCluster"
    | TwigType.SmallBranch => "SmallBranch"
    | TwigType.BranchTip => "BranchTip")

end Engine

namespace TreeRs

/-! Data model of the `tree-rs` crate (`tree-rs/src/tree_structure.rs`),
which extends the engine's with ring- and cross-section-level parent links. -/

/-- Model of `RingId`. -/
structure RingId where
  cross_section_index : ℕ
  ring_index : ℕ
deriving DecidableEq

/-- Model of the `tree-rs` `ComponentRing`. -/
structure ComponentRing where
  offset : Vec2
  radius : ℚ
  ring_type : RingType
  parent_ring_id : Option RingId
  children_ring_ids : List RingId
deriving DecidableEq

/-- Model of the `tree-rs` `BranchCrossSection`. -/
structure BranchCrossSection where
  center : Vec3
  orientation : Quat
  depth : ℕ
  component_rings : List ComponentRing
  parent_index : Option ℕ
  children_indices : List ℕ
deriving DecidableEq

instance : Inhabited ComponentRing := ⟨⟨default, 0, RingType.MainTrunk, none, []⟩⟩

instance : Inhabited BranchCrossSection := ⟨⟨default, default, 0, [], none, []⟩⟩

/-- State update for `cross_sections[i].children_indices.push(c)`. -/
def push_child (cs : List BranchCrossSection) (i c : ℕ) :
    List BranchCrossSection :=
  cs.set i { cs.getD i default with
             children_indices := (cs.getD i default).children_indices ++ [c] }

/-! Root growth engine (`tree-rs/src/lib.rs:1013-1220`). -/

/-- Model of `TreeObject::generate_root_recursive_static`
(`tree-rs/src/lib.rs:1110-1220`), with fuel.  Each step appends one root
cross-section at `depth + 1`; the side-branch decision draw happens after
the main continuation recursion returns, only when `depth > 2`
(short-circuit `&&`), and the side branch recursion starts from the newly
appended cross-section. -/
def generate_root_recursive_static (o : GeomOracle) :
    ℕ → List BranchCrossSection → ℕ → Vec3 → ℕ → RngState → ℚ → ℚ → ℚ → ℚ →
    ℚ → ℚ → List BranchCrossSection × RngState
  | 0, cross_sections, _, _, _, rng, _, _, _, _, _, _ => (cross_sections, rng)
  | fuel + 1, cross_sections, current_cross_section_index, growth_direction,
      depth, rng, segment_length, max_root_depth, root_spread, radius_taper,
      segment_length_variation, current_radius =>
    if 25 < depth ∨ current_radius < 1/100 then (cross_sections, rng)
    else
      let current_center := (cross_sections.getD current_cross_section_index default).center
      if current_center.y < -max_root_depth then (cross_sections, rng)
      else
        let bend_angle := to_radians (rng.next_f (-20) 20)
        let rng1 := rng.bump
        let ax := rng1.next_f (-1) 1
        let rng2 := rng1.bump
        let az := rng2.next_f (-1) 1
        let rng3 := rng2.bump
        let bend_axis := vnormalize o ⟨ax, 0, az⟩
        let bend_rotation := o.from_axis_angle bend_axis bend_angle
        let bent_direction := vnormalize o (o.quat_mul_vec3 bend_rotation growth_direction)
        let variation_factor := 1 + rng3.next_f (-1) 1 * segment_length_variation
        let rng4 := rng3.bump
        let varied_segment_length := segment_length * max variation_factor (1/10)
        let next_center := current_center.add (bent_direction.smul varied_segment_length)
        let next_radius := current_radius * radius_taper * (9/10)
        let next_ring : ComponentRing :=
          ⟨⟨0, 0⟩, next_radius, RingType.Root RootType.LateralRoot, none, []⟩
        let next_cross_section : BranchCrossSection :=
          ⟨next_center, o.from_rotation_arc vec3Y bent_direction, depth + 1,
           [next_ring], some current_cross_section_index, []⟩
        let next_cs_index := cross_sections.length
        let cs1 := push_child cross_sections current_cross_section_index
            next_cs_index ++ [next_cross_section]
        let after_main := generate_root_recursive_static o fuel cs1 next_cs_index
          bent_direction (depth + 1) rng4 segment_length max_root_depth
          root_spread radius_taper segment_length_variation next_radius
        let cs2 := after_main.1
        let rng5 := after_main.2
        let sb := if 2 < depth then
            (decide (rng5.next_f 0 1 < 3/10), rng5.bump)
          else (false, rng5)
        let should_branch := sb.1
        let rng6 := sb.2
        if should_branch = true ∧ depth < 15 then
          let branch_angle := to_radians (rng6.next_f 30 90)
          let rng7 := rng6.bump
          let bx := rng7.next_f (-1) 1
          let rng8 := rng7.bump
          let bz := rng8.next_f (-1) 1
          let rng9 := rng8.bump
          let branch_axis := vnormalize o ⟨bx, 2/10, bz⟩
          let branch_rotation := o.from_axis_angle branch_axis branch_angle
          let branch_direction := vnormalize o (o.quat_mul_vec3 branch_rotation bent_direction)
          let branch_radius := current_radius * (6/10)
          generate_root_recursive_static o fuel cs2 next_cs_index
            branch_direction (depth + 1) rng9 (segment_length * (8/10))
            max_root_depth root_spread radius_taper segment_length_variation
            branch_radius
        else (cs2, rng6)

/-- Body of the per-root loop of `generate_root_system`
(`tree-rs/src/lib.rs:1038-1107`): compute the root direction and starting
ring for lateral root `i`, append the first root cross-section at depth 1 as
a child of the base cross-section, and grow it recursively. -/
def root_loop_step (o : GeomOracle) (fuel : ℕ) (root_cross_section_index : ℕ)
    (root_center : Vec3) (parent_rings : List ComponentRing)
    (root_depth root_spread : ℚ) (root_density : ℕ)
    (root_segment_length radius_taper segment_length_variation : ℚ)
    (st : List BranchCrossSection × RngState) (i : ℕ) :
    List BranchCrossSection × RngState :=
  let cross_sections := st.1
  let rng := st.2
  let angle := ((i : ℚ) / (root_density : ℚ)) * 2 * pi32
  let horizontal_direction : Vec3 := ⟨o.cos angle, 0, o.sin angle⟩
  let base_downward_angle := to_radians 45
  let spread_influence := (root_spread - 1) * 15
  let downward_angle := fclamp (base_downward_angle + to_radians spread_influence)
    (to_radians 20) (to_radians 70)
  let root_direction := vnormalize o
    ⟨horizontal_direction.x * o.sin downward_angle,
     -(o.cos downward_angle),
     horizontal_direction.z * o.sin downward_angle⟩
  let rings_per_root := max ((parent_rings.length : ℚ) / (root_density : ℚ)) 1
  let parent_ring_index :=
    min (⌊(i : ℚ) * rings_per_root⌋.toNat) (parent_rings.length - 1)
  let parent_ring := parent_rings.getD parent_ring_index default
  let connection_offset : Vec2 :=
    ⟨horizontal_direction.x * parent_ring.radius * root_spread,
     horizontal_direction.z * parent_ring.radius * root_spread⟩
  let parent_radius := parent_ring.radius
  let root_radius := parent_radius * (4/10)
  let root_ring : ComponentRing :=
    ⟨connection_offset, root_radius, RingType.Root RootType.LateralRoot, none, []⟩
  let root_start_center := root_center.add (root_direction.smul root_segment_length)
  let first_root_cross_section : BranchCrossSection :=
    ⟨root_start_center, o.from_rotation_arc vec3Y root_direction, 1,
     [root_ring], some root_cross_section_index, []⟩
  let root_cs_index := cross_sections.length
  let cs1 := push_child cross_sections root_cross_section_index root_cs_index ++
    [first_root_cross_section]
  generate_root_recursive_static o fuel cs1 root_cs_index root_direction 1 rng
    root_segment_length root_depth root_spread radius_taper
    segment_length_variation root_radius

/-- Model of `TreeObject::generate_root_system`
(`tree-rs/src/lib.rs:1013-1108`): read the base cross-section's center and
rings once, then spawn `root_density` lateral roots. -/
def generate_root_system (o : GeomOracle) (fuel : ℕ)
    (cross_sections : List BranchCrossSection)
    (root_cross_section_index : ℕ) (rng : RngState)
    (root_depth root_spread : ℚ) (root_density : ℕ)
    (root_segment_length radius_taper segment_length_variation : ℚ) :
    List BranchCrossSection × RngState :=
  let root_center := (cross_sections.getD root_cross_section_index default).center
  let parent_rings := (cross_sections.getD root_cross_section_index default).component_rings
  (List.range root_density).foldl
    (root_loop_step o fuel root_cross_section_index root_center parent_rings
      root_depth root_spread root_density root_segment_length radius_taper
      segment_length_variation)
    (cross_sections, rng)

end TreeRs

namespace TreeRs

/-! Geometry stitcher (`tree-rs/src/tree_structure.rs:153-309, 449-567`). -/

/-- Model of `CrossSectionGeometry`. -/
structure CrossSectionGeometry where
  points : List Vec3
  normals : List Vec3
  tangents : List Vec3
  section_normal : Vec3

/-- Model of `RingMesh`: the flat mesh buffers (vertices and normals kept as
3-vectors here; the flat `f32` representation is `flatten_vec3` below). -/
structure RingMesh where
  vertices : List Vec3
  normals : List Vec3
  uvs : List Vec2
  indices : List ℕ
  depths : List ℕ

/-- Model of `BranchCrossSection::generate_single_ring_geometry`
(`tree_structure.rs:478-508`). -/
def generate_single_ring_geometry (o : GeomOracle) (cs : BranchCrossSection)
    (ring : ComponentRing) (res : ℕ) : CrossSectionGeometry :=
  let pts := (List.range res).map (fun i =>
    let angle := ((i : ℚ) / (res : ℚ)) * 2 * pi32
    let local_x := o.cos angle * ring.radius + ring.offset.x
    let local_z := o.sin angle * ring.radius + ring.offset.y
    let local_point : Vec3 := ⟨local_x, 0, local_z⟩
    (cs.center.add (o.quat_mul_vec3 cs.orientation local_point),
     o.quat_mul_vec3 cs.orientation (vnormalize o local_point),
     o.quat_mul_vec3 cs.orientation (vnormalize o ⟨-local_z, 0, local_x⟩)))
  ⟨pts.map (fun p => p.1), pts.map (fun p => p.2.1), pts.map (fun p => p.2.2),
   o.quat_mul_vec3 cs.orientation vec3Y⟩

/-- Model of `BranchCrossSection::generate_multi_ring_geometry`
(`tree_structure.rs:510-567`): for each sampled direction take the maximal
radial extent over the union of the rings' circles, floored at `0.1`. -/
def generate_multi_ring_geometry (o : GeomOracle) (cs : BranchCrossSection)
    (res : ℕ) : CrossSectionGeometry :=
  let pts := (List.range res).map (fun i =>
    let angle := ((i : ℚ) / (res : ℚ)) * 2 * pi32
    let direction : Vec2 := ⟨o.cos angle, o.sin angle⟩
    let max_distance := cs.component_rings.foldl (fun md ring =>
      let center_projection := ring.offset.dot direction
      let ring_reach := center_projection + ring.radius
      let distance_to_center :=
        vlength2 o (ring.offset.sub (direction.smul center_projection))
      if distance_to_center ≤ ring.radius then
        max md (center_projection +
          o.sqrt (ring.radius * ring.radius - distance_to_center * distance_to_center))
      else max md ring_reach) 0
    let max_distance := max max_distance (1/10)
    let local_x := direction.x * max_distance
    let local_z := direction.y * max_distance
    let local_point : Vec3 := ⟨local_x, 0, local_z⟩
    (cs.center.add (o.quat_mul_vec3 cs.orientation local_point),
     o.quat_mul_vec3 cs.orientation (vnormalize o local_point),
     o.quat_mul_vec3 cs.orientation (vnormalize o ⟨-local_z, 0, local_x⟩)))
  ⟨pts.map (fun p => p.1), pts.map (fun p => p.2.1), pts.map (fun p => p.2.2),
   o.quat_mul_vec3 cs.orientation vec3Y⟩

/-- Model of `BranchCrossSection::generate_unified_geometry`
(`tree_structure.rs:450-476`): no rings gives empty geometry, a single ring
the circular geometry, several rings the union-of-circles envelope. -/
def generate_unified_geometry (o : GeomOracle) (cs : BranchCrossSection)
    (res : ℕ) : CrossSectionGeometry :=
  if cs.component_rings = [] then
    ⟨[], [], [], o.quat_mul_vec3 cs.orientation vec3Y⟩
  else if cs.component_rings.length = 1 then
    generate_single_ring_geometry o cs (cs.component_rings.getD 0 default) res
  else generate_multi_ring_geometry o cs res

/-- Model of `TreeStructure::connect_cross_section_perimeters_with_depth`
(`tree_structure.rs:246-309`): append one stitched band of quads between the
two perimeters, using `resolution = min` of the two point counts; two
vertices (parent, child) per step, a flat-shaded face normal repeated for
both, `u = i / resolution` UVs with `v = 0` on the parent and `1` on the
child, and six indices per quad. -/
def connect_cross_section_perimeters_with_depth (o : GeomOracle)
    (parent_geo child_geo : CrossSectionGeometry)
    (parent_depth child_depth : ℕ) (m : RingMesh) : RingMesh :=
  let base_vertex_idx := m.vertices.length
  let resolution := min parent_geo.points.length child_geo.points.length
  let new_vertices := (List.range resolution).flatMap (fun i =>
    [parent_geo.points.getD i default, child_geo.points.getD i default])
  let new_depths := (List.range resolution).flatMap (fun _ =>
    [parent_depth, child_depth])
  let new_normals := (List.range resolution).flatMap (fun i =>
    let next_i := (i + 1) % resolution
    let p1 := parent_geo.points.getD i default
    let p2 := child_geo.points.getD i default
    let p4 := parent_geo.points.getD next_i default
    let edge1 := p2.sub p1
    let edge2 := p4.sub p1
    let face_normal := vnormalize o (edge1.cross edge2)
    [face_normal, face_normal])
  let new_uvs := (List.range resolution).flatMap (fun i =>
    let u := (i : ℚ) / (resolution : ℚ)
    [(⟨u, 0⟩ : Vec2), ⟨u, 1⟩])
  let new_indices := (List.range resolution).flatMap (fun i =>
    let next_i := (i + 1) % resolution
    let p1 := base_vertex_idx + i * 2
    let p2 := base_vertex_idx + i * 2 + 1
    let p3 := base_vertex_idx + next_i * 2 + 1
    let p4 := base_vertex_idx + next_i * 2
    [p1, p2, p3, p1, p3, p4])
  ⟨m.vertices ++ new_vertices, m.normals ++ new_normals, m.uvs ++ new_uvs,
   m.indices ++ new_indices, m.depths ++ new_depths⟩

/-- Model of `TreeStructure::generate_mesh` (`tree_structure.rs:153-184`):
compute the unified geometry of every cross-section, then stitch one band
per parent-to-child edge of the cross-section graph, in index order. -/
def generate_mesh (o : GeomOracle) (cross_sections : List BranchCrossSection)
    (ring_resolution : ℕ) : RingMesh :=
  let cross_section_geometries := cross_sections.map
    (fun cross_section => generate_unified_geometry o cross_section ring_resolution)
  cross_sections.enum.foldl (fun m pair =>
      pair.2.children_indices.foldl (fun m2 child_idx =>
          connect_cross_section_perimeters_with_depth o
            (cross_section_geometries.getD pair.1 ⟨[], [], [], default⟩)
            (cross_section_geometries.getD child_idx ⟨[], [], [], default⟩)
            pair.2.depth
            ((cross_sections.getD child_idx default).depth)
            m2)
        m)
    ⟨[], [], [], [], []⟩

/-- Flat `f32` representation of a vertex or normal buffer
(`TreeObject::generate_tree_mesh` flattens each `Vec3` into three floats). -/
def flatten_vec3 (l : List Vec3) : List ℚ :=
  l.flatMap (fun v => [v.x, v.y, v.z])

/-- Number of parent-to-child edges of a cross-section list, together with
the per-edge stitched resolution: the sum over all edges of
`min (parent points) (child points)` at the given resolution.  One band of
`2 * min` vertices and `6 * min` indices is emitted per edge. -/
def edge_band_sum (o : GeomOracle) (cross_sections : List BranchCrossSection)
    (ring_resolution : ℕ) : ℕ :=
  let geos := cross_sections.map
    (fun cross_section => generate_unified_geometry o cross_section ring_resolution)
  cross_sections.enum.foldl (fun n pair =>
      pair.2.children_indices.foldl (fun n2 child_idx =>
          n2 + min (geos.getD pair.1 ⟨[], [], [], default⟩).points.length
                   (geos.getD child_idx ⟨[], [], [], default⟩).points.length)
        n)
    0

end TreeRs

/-! Real-number translation of the ring generator, for the area-conservation
property.  The radii of `generate_trunk_rings` are `f32::sqrt` values; this
translation reads the same code over `ℝ` with the genuine square root, so
that the claimed area identity can be stated and proved exactly. -/

/-- Ring of the real-number translation: radius and offset in `ℝ`. -/
structure ComponentRingR where
  offset_x : ℝ
  offset_y : ℝ
  radius : ℝ
  ring_type : RingType

/-- Real-number translation of `RingGenerator::generate_trunk_rings`
(`packages/tree-engine/src/trunk/rings.rs:12-75`; the `tree-rs` copy at
`tree-rs/src/lib.rs:259-321` computes the same radii).  The `f32` π constant
is kept as its exact rational value, cast to `ℝ`. -/
noncomputable def generate_trunk_rings_real (params : TrunkParams) (height : ℚ) :
    List ComponentRingR :=
  let ring_count := Engine.ring_count_of params.buttressing
  let base_trunk_radius : ℝ := 1/2 * (params.size : ℝ)
  let target_area := (pi32 : ℝ) * base_trunk_radius * base_trunk_radius
  if ring_count = 1 then
    [⟨0, 0, base_trunk_radius, RingType.MainTrunk⟩]
  else
    let area_per_ring := target_area / (ring_count : ℝ)
    let individual_ring_radius := Real.sqrt (area_per_ring / (pi32 : ℝ))
    let outer_rings := ring_count - 1
    let height_factor : ℝ :=
      if 0 < params.height then
        1 - min (max ((height : ℝ) / (params.height : ℝ)) 0) 1 * (3/4)
      else 1
    let spread_distance := base_trunk_radius * (params.ring_spread : ℝ) * height_factor
    ⟨0, 0, individual_ring_radius, RingType.MainTrunk⟩ ::
      (List.range outer_rings).map (fun (i : ℕ) =>
        let angle := ((i : ℝ) / (outer_rings : ℝ)) * 2 * (pi32 : ℝ)
        ⟨Real.cos angle * spread_distance, Real.sin angle * spread_distance,
         individual_ring_radius, RingType.SideBranch⟩)

/-- Total cross-sectional area `Σ π r²` of a ring list (with the `f32` π). -/
noncomputable def sum_ring_areas (rings : List ComponentRingR) : ℝ :=
  (rings.map (fun r => (pi32 : ℝ) * r.radius * r.radius)).sum

/-! Concrete instances used by witnesses and counterexamples. -/

/-- Concrete oracle interpreting every uninterpreted primitive by zero
(used only to instantiate universally quantified statements). -/
def zero_oracle : GeomOracle :=
  ⟨fun _ => 0, fun _ => 0, fun _ => 0, fun _ _ => default, fun _ _ => default,
   fun _ _ => default⟩

/-- Concrete RNG stream of all-zero draws. -/
def zero_rng : RngState := ⟨fun _ => 0, fun _ => 0, 0⟩

/-- A concrete parameter bundle with `general.max_depth = 1` and
`roots.density = 3`, used to instantiate universally quantified statements. -/
def sample_params : TreeParameters :=
  ⟨⟨0, 1⟩, ⟨8, 0, 2, 1/2, 1, 3/2, 1/10⟩, ⟨25, 40, 5, 15, 3, 6, 8/10, 1, 15⟩,
   ⟨true, 2, 1, 3, 1/2⟩, ⟨true, 1, 1/2, 3/10⟩⟩

/-- Concrete trunk parameters whose buttressing value `1.5` produces more
than one trunk ring. -/
def sample_rings_trunk_params : TrunkParams := ⟨8, 3/2, 2, 1/2, 1, 3/2, 1/10⟩

/-- A concrete base cross-section of the `tree-rs` data model with a single
trunk ring of radius `1/50`: the lateral-root radius `0.4 * 1/50 = 1/125` is
below the `0.01` stop threshold, so root growth stops right after the first
appended root cross-section. -/
def sample_base_cross_section : TreeRs.BranchCrossSection :=
  ⟨⟨0, 0, 0⟩, ⟨0, 0, 0, 1⟩, 0, [⟨⟨0, 0⟩, 1/50, RingType.MainTrunk, none, []⟩],
   none, []⟩

/-- Concrete twig-generation parameters with the engine's attachment
threshold `0.05`. -/
def sample_twig_gen_params : TwigGenerationParams := ⟨1, 1/2, 3/2, 3/10, 5/100⟩

/-- A concrete engine ring of radius `0.2`, more than twice the attachment
threshold `0.05`. -/
def sample_gate_ring : Engine.ComponentRing := ⟨⟨0, 0⟩, 1/5, RingType.MainTrunk⟩

/-! List access helper lemmas used throughout the invariant proofs. -/

theorem getD_set_ne {α : Type _} (l : List α) (i j : ℕ) (a d : α) (h : i ≠ j) :
    (l.set i a).getD j d = l.getD j d := by
  simp [List.getD_eq_getElem?_getD, List.getElem?_set_ne h]

theorem getD_set_self {α : Type _} (l : List α) (i : ℕ) (a d : α)
    (h : i < l.length) : (l.set i a).getD i d = a := by
  simp [List.getD_eq_getElem?_getD, List.getElem?_set_self h]

theorem getD_append_left {α : Type _} (l m : List α) (j : ℕ) (d : α)
    (h : j < l.length) : (l ++ m).getD j d = l.getD j d := by
  simp [List.getD_eq_getElem?_getD, List.getElem?_append_left h]

theorem getD_append_right {α : Type _} (l m : List α) (j : ℕ) (d : α)
    (h : l.length ≤ j) : (l ++ m).getD j d = m.getD (j - l.length) d := by
  simp [List.getD_eq_getElem?_getD, List.getElem?_append_right h]

theorem getD_of_len_le {α : Type _} (l : List α) (n : ℕ) (d : α)
    (h : l.length ≤ n) : l.getD n d = d := by
  simp [List.getD_eq_getElem?_getD, List.getElem?_eq_none h]

namespace Engine

theorem length_push_child (cs : List BranchCrossSection) (i c : ℕ) :
    (push_child cs i c).length = cs.length := by
  simp [push_child]

theorem getD_push_child_ne (cs : List BranchCrossSection) (i c j : ℕ)
    (h : i ≠ j) : (push_child cs i c).getD j default = cs.getD j default := by
  unfold push_child
  rw [getD_set_ne _ _ _ _ _ h]

theorem getD_push_child_self (cs : List BranchCrossSection) (i c : ℕ)
    (h : i < cs.length) :
    (push_child cs i c).getD i default =
      { cs.getD i default with
        children_indices := (cs.getD i default).children_indices ++ [c] } := by
  unfold push_child
  rw [getD_set_self _ _ _ _ h]

end Engine

namespace Engine

theorem length_continue_child_rings (bp : BranchingParams) (tp : TrunkParams)
    (depth : ℕ) (next_center : Vec3) (current_rings : List ComponentRing) :
    (continue_child_rings bp tp depth next_center current_rings).length =
      current_rings.length := by
  simp [continue_child_rings]

theorem split_rings_for_branch_nonempty (st : ℚ)
    (parent_rings : List ComponentRing) (h : parent_rings ≠ []) :
    (split_rings_for_branch st parent_rings).1 ≠ [] ∧
    (split_rings_for_branch st parent_rings).2 ≠ [] := by
  have hlen : 0 < parent_rings.length := List.length_pos.2 h
  unfold split_rings_for_branch
  by_cases h1 : parent_rings.length = 1
  · constructor <;> simp [h1, ← List.length_pos, List.length_map]
  · have h2 : 2 ≤ parent_rings.length := by omega
    constructor <;>
      simp only [h1, if_false, ← List.length_pos, List.length_map,
        List.length_take, List.length_drop] <;>
      omega

theorem core_result_length (o : GeomOracle) (bp : BranchingParams)
    (tp : TrunkParams) (cs : List BranchCrossSection) (idx : ℕ)
    (pr : List ComponentRing) (center dir : Vec3) (depth : ℕ) (rng : RngState) :
    (create_coordinated_branches_core o bp tp cs idx pr center dir depth rng).1.length =
      cs.length + 2 := by
  simp [create_coordinated_branches_core, length_push_child]

theorem core_trunk_idx (o : GeomOracle) (bp : BranchingParams)
    (tp : TrunkParams) (cs : List BranchCrossSection) (idx : ℕ)
    (pr : List ComponentRing) (center dir : Vec3) (depth : ℕ) (rng : RngState) :
    (create_coordinated_branches_core o bp tp cs idx pr center dir depth rng).2.2.1 =
      cs.length := by
  simp [create_coordinated_branches_core]

theorem core_branch_idx (o : GeomOracle) (bp : BranchingParams)
    (tp : TrunkParams) (cs : List BranchCrossSection) (idx : ℕ)
    (pr : List ComponentRing) (center dir : Vec3) (depth : ℕ) (rng : RngState) :
    (create_coordinated_branches_core o bp tp cs idx pr center dir depth rng).2.2.2.1 =
      cs.length + 1 := by
  simp [create_coordinated_branches_core]

theorem core_getD_ne (o : GeomOracle) (bp : BranchingParams)
    (tp : TrunkParams) (cs : List BranchCrossSection) (idx : ℕ)
    (pr : List ComponentRing) (center dir : Vec3) (depth : ℕ) (rng : RngState)
    (j : ℕ) (hj : j < cs.length) (hne : j ≠ idx) :
    (create_coordinated_branches_core o bp tp cs idx pr center dir depth rng).1.getD j default =
      cs.getD j default := by
  unfold create_coordinated_branches_core
  simp only
  rw [getD_append_left _ _ _ _ (by simp [length_push_child]; omega)]
  rw [getD_push_child_ne _ _ _ _ (fun h => hne h.symm),
    getD_push_child_ne _ _ _ _ (fun h => hne h.symm)]

theorem core_getD_idx (o : GeomOracle) (bp : BranchingParams)
    (tp : TrunkParams) (cs : List BranchCrossSection) (idx : ℕ)
    (pr : List ComponentRing) (center dir : Vec3) (depth : ℕ) (rng : RngState)
    (hidx : idx < cs.length) :
    (create_coordinated_branches_core o bp tp cs idx pr center dir depth rng).1.getD idx default =
      { cs.getD idx default with
        children_indices := (cs.getD idx default).children_indices ++
          [cs.length, cs.length + 1] } := by
  unfold create_coordinated_branches_core
  simp only
  rw [getD_append_left _ _ _ _ (by simp [length_push_child]; omega)]
  rw [getD_push_child_self _ _ _ (by simp [length_push_child]; omega),
    getD_push_child_self _ _ _ hidx]
  simp

theorem core_getD_trunk (o : GeomOracle) (bp : BranchingParams)
    (tp : TrunkParams) (cs : List BranchCrossSection) (idx : ℕ)
    (pr : List ComponentRing) (center dir : Vec3) (depth : ℕ) (rng : RngState) :
    ((create_coordinated_branches_core o bp tp cs idx pr center dir depth rng).1.getD
        cs.length default).depth = depth + 1 ∧
    ((create_coordinated_branches_core o bp tp cs idx pr center dir depth rng).1.getD
        cs.length default).component_rings =
      (split_rings_for_branch (1 - (1 - bp.radius_taper) * (15/100)) pr).1 ∧
    ((create_coordinated_branches_core o bp tp cs idx pr center dir depth rng).1.getD
        cs.length default).children_indices = [] := by
  unfold create_coordinated_branches_core
  simp only
  rw [getD_append_right _ _ _ _ (by simp [length_push_child])]
  simp [length_push_child]

theorem core_getD_branch (o : GeomOracle) (bp : BranchingParams)
    (tp : TrunkParams) (cs : List BranchCrossSection) (idx : ℕ)
    (pr : List ComponentRing) (center dir : Vec3) (depth : ℕ) (rng : RngState) :
    ((create_coordinated_branches_core o bp tp cs idx pr center dir depth rng).1.getD
        (cs.length + 1) default).depth = depth + 1 ∧
    ((create_coordinated_branches_core o bp tp cs idx pr center dir depth rng).1.getD
        (cs.length + 1) default).component_rings =
      (split_rings_for_branch (1 - (1 - bp.radius_taper) * (15/100)) pr).2 ∧
    ((create_coordinated_branches_core o bp tp cs idx pr center dir depth rng).1.getD
        (cs.length + 1) default).children_indices = [] := by
  unfold create_coordinated_branches_core
  simp only
  rw [getD_append_right _ _ _ _ (by simp [length_push_child])]
  simp [length_push_child]

end Engine

namespace Engine

/-- Postcondition of one `generate_coordinated_recursive` call on state `cs`
with current index `idx`, result state `R`: the state only grows; entries
other than `idx` are untouched; the entry at `idx` gains at most two child
indices, all pointing at fresh cross-sections; and every fresh cross-section
has at most two children, depth below `max_depth`, a non-empty ring list,
and in-range child indices. -/
def gcr_post (gp : GeneralParams) (cs R : List BranchCrossSection) (idx : ℕ) :
    Prop :=
  cs.length ≤ R.length ∧
  (∀ j, j < cs.length → j ≠ idx → R.getD j default = cs.getD j default) ∧
  (∃ l, R.getD idx default =
      { cs.getD idx default with
        children_indices := (cs.getD idx default).children_indices ++ l } ∧
    l.length ≤ 2 ∧ ∀ c ∈ l, cs.length ≤ c ∧ c < R.length) ∧
  (∀ j, cs.length ≤ j → j < R.length →
    (R.getD j default).children_indices.length ≤ 2 ∧
    (R.getD j default).depth < gp.max_depth ∧
    (R.getD j default).component_rings ≠ [] ∧
    ∀ c ∈ (R.getD j default).children_indices, c < R.length)

theorem gcr_post_refl (gp : GeneralParams) (cs : List BranchCrossSection)
    (idx : ℕ) : gcr_post gp cs cs idx := by
  refine ⟨le_refl _, fun j _ _ => rfl, ⟨[], by simp, by simp, by simp⟩,
    fun j hj1 hj2 => absurd hj1 (by omega)⟩

end Engine

namespace Engine

theorem append_one_length (cs : List BranchCrossSection) (idx : ℕ)
    (new_cs : BranchCrossSection) :
    (push_child cs idx cs.length ++ [new_cs]).length = cs.length + 1 := by
  simp [length_push_child]

theorem append_one_getD_ne (cs : List BranchCrossSection) (idx : ℕ)
    (new_cs : BranchCrossSection) (j : ℕ) (hj : j < cs.length) (hne : j ≠ idx) :
    (push_child cs idx cs.length ++ [new_cs]).getD j default = cs.getD j default := by
  rw [getD_append_left _ _ _ _ (by rw [length_push_child]; omega)]
  exact getD_push_child_ne _ _ _ _ (fun h => hne h.symm)

theorem append_one_getD_idx (cs : List BranchCrossSection) (idx : ℕ)
    (new_cs : BranchCrossSection) (hidx : idx < cs.length) :
    (push_child cs idx cs.length ++ [new_cs]).getD idx default =
      { cs.getD idx default with
        children_indices := (cs.getD idx default).children_indices ++
          [cs.length] } := by
  rw [getD_append_left _ _ _ _ (by rw [length_push_child]; omega)]
  exact getD_push_child_self _ _ _ hidx

theorem append_one_getD_new (cs : List BranchCrossSection) (idx : ℕ)
    (new_cs : BranchCrossSection) :
    (push_child cs idx cs.length ++ [new_cs]).getD cs.length default = new_cs := by
  rw [getD_append_right _ _ _ _ (by rw [length_push_child])]
  simp [length_push_child]

/-- Composition of the continue-as-trunk path: push the new cross-section
and recurse on it.  The new cross-section is only assumed to have depth
below `max_depth`, a non-empty ring list and no children yet; the recursion
argument `IH` is the induction hypothesis at the smaller fuel. -/
theorem gcr_continue_compose (o : GeomOracle) (bp : BranchingParams)
    (tp : TrunkParams) (gp : GeneralParams) (n : ℕ)
    (cs : List BranchCrossSection) (idx : ℕ) (new_cs : BranchCrossSection)
    (dir : Vec3) (depth ssb sacd : ℕ) (rng : RngState)
    (hidx : idx < cs.length)
    (hdep : new_cs.depth < gp.max_depth)
    (hrings : new_cs.component_rings ≠ [])
    (hch : new_cs.children_indices = [])
    (IH : ∀ cs1 idx1 dir1 d1 s1 s2 r1, idx1 < cs1.length →
      gcr_post gp cs1
        ((generate_coordinated_recursive o bp tp gp n cs1 idx1 dir1 d1 s1 s2 r1).1)
        idx1) :
    gcr_post gp cs
      ((generate_coordinated_recursive o bp tp gp n
          (push_child cs idx cs.length ++ [new_cs]) cs.length dir depth ssb
          sacd rng).1)
      idx := by
  have hlen1 : (push_child cs idx cs.length ++ [new_cs]).length = cs.length + 1 :=
    append_one_length cs idx new_cs
  have H := IH (push_child cs idx cs.length ++ [new_cs]) cs.length dir depth
    ssb sacd rng (by omega)
  obtain ⟨H1, H2, ⟨l, H3a, H3b, H3c⟩, H4⟩ := H
  set R := (generate_coordinated_recursive o bp tp gp n
    (push_child cs idx cs.length ++ [new_cs]) cs.length dir depth ssb sacd rng).1
  refine ⟨by omega, ?_, ?_, ?_⟩
  · intro j hj hne
    rw [H2 j (by omega) (by omega), append_one_getD_ne cs idx new_cs j hj hne]
  · refine ⟨[cs.length], ?_, by simp, ?_⟩
    · rw [H2 idx (by omega) (by omega), append_one_getD_idx cs idx new_cs hidx]
    · intro c hc
      simp only [List.mem_singleton] at hc
      subst hc
      exact ⟨le_refl _, by omega⟩
  · intro j hj1 hj2
    rcases eq_or_lt_of_le hj1 with hj | hj
    · -- the freshly appended cross-section
      subst hj
      have hgd : R.getD cs.length default =
          { new_cs with children_indices := new_cs.children_indices ++ l } := by
        rw [H3a, append_one_getD_new cs idx new_cs]
      rw [hgd]
      refine ⟨by simp [hch]; omega, hdep, hrings, ?_⟩
      intro c hc
      simp only [hch, List.nil_append] at hc
      exact (H3c c hc).2
    · -- cross-sections appended by the recursive call
      have := H4 j (by omega) hj2
      exact this

end Engine

namespace Engine

/-- Composition of the branch path: append the two branch-point children
through `create_coordinated_branches_core`, recurse on the trunk
continuation, then recurse on the branch. -/
theorem gcr_branch_compose (o : GeomOracle) (bp : BranchingParams)
    (tp : TrunkParams) (gp : GeneralParams) (n : ℕ)
    (cs : List BranchCrossSection) (idx : ℕ) (pr : List ComponentRing)
    (center bent : Vec3) (depth : ℕ) (rng : RngState)
    (hidx : idx < cs.length) (hpr : pr ≠ [])
    (hd : depth + 1 < gp.max_depth)
    (IH : ∀ cs1 idx1 dir1 d1 s1 s2 r1, idx1 < cs1.length →
      gcr_post gp cs1
        ((generate_coordinated_recursive o bp tp gp n cs1 idx1 dir1 d1 s1 s2 r1).1)
        idx1) :
    gcr_post gp cs
      ((generate_coordinated_recursive o bp tp gp n
          (generate_coordinated_recursive o bp tp gp n
            (create_coordinated_branches_core o bp tp cs idx pr center bent depth rng).1
            (create_coordinated_branches_core o bp tp cs idx pr center bent depth rng).2.2.1
            bent (depth + 1) 0 0
            (create_coordinated_branches_core o bp tp cs idx pr center bent depth rng).2.1).1
          (create_coordinated_branches_core o bp tp cs idx pr center bent depth rng).2.2.2.1
          (create_coordinated_branches_core o bp tp cs idx pr center bent depth rng).2.2.2.2
          (depth + 1) 0 0
          (generate_coordinated_recursive o bp tp gp n
            (create_coordinated_branches_core o bp tp cs idx pr center bent depth rng).1
            (create_coordinated_branches_core o bp tp cs idx pr center bent depth rng).2.2.1
            bent (depth + 1) 0 0
            (create_coordinated_branches_core o bp tp cs idx pr center bent depth rng).2.1).2).1)
      idx := by
  have hAlen := core_result_length o bp tp cs idx pr center bent depth rng
  have hAt := core_trunk_idx o bp tp cs idx pr center bent depth rng
  have hAb := core_branch_idx o bp tp cs idx pr center bent depth rng
  have hAidx := core_getD_idx o bp tp cs idx pr center bent depth rng hidx
  have hAne := core_getD_ne o bp tp cs idx pr center bent depth rng
  have hTrunkNode := core_getD_trunk o bp tp cs idx pr center bent depth rng
  have hBranchNode := core_getD_branch o bp tp cs idx pr center bent depth rng
  have hsplit := split_rings_for_branch_nonempty
    (1 - (1 - bp.radius_taper) * (15/100)) pr hpr
  set A := create_coordinated_branches_core o bp tp cs idx pr center bent depth rng with hA
  have IH1 := IH A.1 A.2.2.1 bent (depth + 1) 0 0 A.2.1 (by rw [hAt, hAlen]; omega)
  set T := generate_coordinated_recursive o bp tp gp n A.1 A.2.2.1 bent
    (depth + 1) 0 0 A.2.1 with hT
  obtain ⟨I11, I12, ⟨l1, I13a, I13b, I13c⟩, I14⟩ := IH1
  have IH2 := IH T.1 A.2.2.2.1 A.2.2.2.2 (depth + 1) 0 0 T.2
    (by rw [hAb]; omega)
  set R := generate_coordinated_recursive o bp tp gp n T.1 A.2.2.2.1
    A.2.2.2.2 (depth + 1) 0 0 T.2 with hR
  obtain ⟨I21, I22, ⟨l2, I23a, I23b, I23c⟩, I24⟩ := IH2
  rw [hAt] at I12 I13a
  rw [hAlen] at I12 I13c I14
  rw [hAb] at I22 I23a
  refine ⟨by omega, ?_, ?_, ?_⟩
  · intro j hj hne
    rw [I22 j (by omega) (by omega), I12 j (by omega) (by omega),
      hAne j hj hne]
  · refine ⟨[cs.length, cs.length + 1], ?_, by simp, ?_⟩
    · rw [I22 idx (by omega) (by omega), I12 idx (by omega) (by omega), hAidx]
    · intro c hc
      simp only [List.mem_cons, List.mem_singleton, List.not_mem_nil, or_false] at hc
      rcases hc with rfl | rfl
      · exact ⟨le_refl _, by omega⟩
      · exact ⟨by omega, by omega⟩
  · intro j hj1 hj2
    by_cases hcase1 : j = cs.length
    · -- the trunk-continuation cross-section
      subst hcase1
      have e1 : R.1.getD cs.length default = T.1.getD cs.length default :=
        I22 cs.length (by omega) (by omega)
      rw [e1, I13a]
      refine ⟨?_, ?_, ?_, ?_⟩
      · simp only [hTrunkNode.2.2, List.nil_append]
        exact I13b
      · simp only [hTrunkNode.1]
        exact hd
      · simp only [hTrunkNode.2.1]
        exact hsplit.1
      · intro c hc
        simp only [hTrunkNode.2.2, List.nil_append] at hc
        have := I13c c hc
        omega
    · by_cases hcase2 : j = cs.length + 1
      · -- the branch cross-section
        subst hcase2
        have e1 : T.1.getD (cs.length + 1) default =
            A.1.getD (cs.length + 1) default :=
          I12 (cs.length + 1) (by omega) (by omega)
        rw [I23a, e1]
        refine ⟨?_, ?_, ?_, ?_⟩
        · simp only [hBranchNode.2.2, List.nil_append]
          exact I23b
        · simp only [hBranchNode.1]
          exact hd
        · simp only [hBranchNode.2.1]
          exact hsplit.2
        · intro c hc
          simp only [hBranchNode.2.2, List.nil_append] at hc
          exact (I23c c hc).2
      · -- cross-sections appended by the two recursive calls
        by_cases hcase3 : j < T.1.length
        · have e1 : R.1.getD j default = T.1.getD j default :=
            I22 j (by omega) (by omega)
          have := I14 j (by omega) hcase3
          rw [e1]
          refine ⟨this.1, this.2.1, this.2.2.1, ?_⟩
          intro c hc
          have := this.2.2.2 c hc
          omega
        · have := I24 j (by omega) hj2
          exact this

end Engine

namespace Engine

/-- Main structural invariant of the trunk/branch growth engine: every
recursive call only appends cross-sections, touches no entry except the one
it is growing, gives it at most two children, and every appended
cross-section has at most two children, depth strictly below `max_depth`, a
non-empty ring list and in-range child indices. -/
theorem gcr_invariant (o : GeomOracle) (bp : BranchingParams)
    (tp : TrunkParams) (gp : GeneralParams) :
    ∀ (fuel : ℕ) (cs : List BranchCrossSection) (idx : ℕ) (dir : Vec3)
      (depth ssb sacd : ℕ) (rng : RngState), idx < cs.length →
      gcr_post gp cs
        ((generate_coordinated_recursive o bp tp gp fuel cs idx dir depth ssb
            sacd rng).1)
        idx := by
  intro fuel
  induction fuel with
  | zero =>
    intro cs idx dir depth ssb sacd rng _
    exact gcr_post_refl gp cs idx
  | succ n ih =>
    intro cs idx dir depth ssb sacd rng hidx
    simp only [generate_coordinated_recursive]
    split_ifs with h1 h2 h3 h4 h5 h6
    · exact gcr_post_refl gp cs idx
    · exact gcr_post_refl gp cs idx
    · exact gcr_post_refl gp cs idx
    · exact gcr_post_refl gp cs idx
    · exact gcr_post_refl gp cs idx
    · exact gcr_branch_compose o bp tp gp n cs idx _ _ _ depth _ hidx h3
        (by omega) ih
    · exact gcr_continue_compose o bp tp gp n cs idx _ _ depth (ssb + 1)
        (sacd + 1) _ hidx (Nat.not_le.mp h1)
        (by rw [← List.length_pos, length_continue_child_rings]
            exact List.length_pos.mpr h3)
        rfl ih

end Engine

namespace Engine

/-- Early-return behavior of the segment cap: whenever
`segments_at_current_depth` has reached the per-depth cap, the recursion
returns with the state (and the RNG stream) completely unchanged, so no
child cross-section is created. -/
theorem gcr_cap_stop (o : GeomOracle) (bp : BranchingParams)
    (tp : TrunkParams) (gp : GeneralParams) (fuel : ℕ)
    (cs : List BranchCrossSection) (idx : ℕ) (dir : Vec3)
    (depth ssb sacd : ℕ) (rng : RngState)
    (h : max_segments_for_depth tp depth ≤ sacd) :
    generate_coordinated_recursive o bp tp gp fuel cs idx dir depth ssb sacd
      rng = (cs, rng) := by
  cases fuel with
  | zero => rfl
  | succ n =>
    simp only [generate_coordinated_recursive]
    by_cases h1 : gp.max_depth ≤ depth
    · rw [if_pos h1]
    · rw [if_neg h1, if_pos h]

theorem generate_trunk_rings_nonempty (o : GeomOracle) (params : TrunkParams)
    (height : ℚ) : generate_trunk_rings o params height ≠ [] := by
  unfold generate_trunk_rings
  by_cases h : ring_count_of params.buttressing = 1
  · simp [h]
  · simp [h]

theorem trunk_system_cross_sections (o : GeomOracle) (params : TrunkParams)
    (tree : TreeStructure) :
    (trunk_system_generate o params tree).cross_sections =
      [⟨⟨0, 0, 0⟩, default, 0, generate_trunk_rings o params 0, []⟩] := rfl

/-- One root-segment step preserves any per-cross-section predicate that is
stable under child pushes and holds for the appended root cross-section. -/
theorem root_segment_step_preserves (P : BranchCrossSection → Prop)
    (base_center : Vec3) (base_rings : List ComponentRing)
    (params : RootParams) (cs : List BranchCrossSection) (segment : ℕ)
    (hpush : ∀ x c, P x → P { x with children_indices := x.children_indices ++ [c] })
    (hnew : ∀ center rings, rings.length = base_rings.length →
      P (⟨center, default, 0, rings, []⟩ : BranchCrossSection))
    (hall : ∀ j, j < cs.length → P (cs.getD j default)) :
    ∀ j, j < (root_segment_step base_center base_rings params cs segment).length →
      P ((root_segment_step base_center base_rings params cs segment).getD j default) := by
  have hstep : root_segment_step base_center base_rings params cs segment =
      push_child cs (if segment = 0 then 0 else cs.length - 1) cs.length ++
        [⟨base_center.sub ⟨0, ((segment : ℚ) + 1) * params.segment_length, 0⟩,
          default, 0,
          base_rings.map (fun trunk_ring =>
            (⟨trunk_ring.offset, trunk_ring.radius * (1 - (segment : ℚ) * (1/10)),
              RingType.MainTrunk⟩ : ComponentRing)), []⟩] := by
    unfold root_segment_step
    by_cases hsz : segment = 0 <;> simp [hsz]
  rw [hstep]
  intro j hj
  simp only [List.length_append, push_child, List.length_set,
    List.length_singleton] at hj
  rcases Nat.lt_or_ge j cs.length with hlt | hge
  · rw [getD_append_left _ _ _ _ (by rw [length_push_child]; omega)]
    by_cases heq : j = (if segment = 0 then 0 else cs.length - 1)
    · subst heq
      rw [getD_push_child_self _ _ _ (by omega)]
      exact hpush _ _ (hall _ (by omega))
    · rw [getD_push_child_ne _ _ _ _ (fun h => heq h.symm)]
      exact hall j hlt
  · have hj2 : j = cs.length := by omega
    subst hj2
    rw [getD_append_right _ _ _ _ (by rw [length_push_child])]
    simp only [length_push_child, Nat.sub_self, List.getD_cons_zero]
    exact hnew _ _ (List.length_map _ _)

end Engine

namespace Engine

theorem twig_system_cross_sections (o : GeomOracle) (params : TwigParams)
    (tree : TreeStructure) (rng : RngState) :
    ((twig_system_generate o params tree rng).1).cross_sections =
      tree.cross_sections := by
  unfold twig_system_generate
  split_ifs <;> rfl

theorem root_system_generate_preserves (P : BranchCrossSection → Prop)
    (params : RootParams) (tree : TreeStructure)
    (hpush : ∀ x c, P x → P { x with children_indices := x.children_indices ++ [c] })
    (hnew : ∀ center rings,
      rings.length = (tree.cross_sections.getD 0 default).component_rings.length →
      P (⟨center, default, 0, rings, []⟩ : BranchCrossSection))
    (hall : ∀ j, j < tree.cross_sections.length →
      P (tree.cross_sections.getD j default)) :
    ∀ j, j < (root_system_generate params tree).cross_sections.length →
      P ((root_system_generate params tree).cross_sections.getD j default) := by
  unfold root_system_generate
  by_cases he : params.enable = false
  · rw [if_pos he]
    exact hall
  · rw [if_neg he]
    simp only
    have h3 : List.range 3 = [0, 1, 2] := rfl
    rw [h3]
    simp only [List.foldl]
    have s0 := root_segment_step_preserves P
      (tree.cross_sections.getD 0 default).center
      (tree.cross_sections.getD 0 default).component_rings params
      tree.cross_sections 0 hpush hnew hall
    have s1 := root_segment_step_preserves P
      (tree.cross_sections.getD 0 default).center
      (tree.cross_sections.getD 0 default).component_rings params
      _ 1 hpush hnew s0
    have s2 := root_segment_step_preserves P
      (tree.cross_sections.getD 0 default).center
      (tree.cross_sections.getD 0 default).component_rings params
      _ 2 hpush hnew s1
    exact s2

theorem generate_branches_facts (o : GeomOracle) (fuel : ℕ)
    (bp : BranchingParams) (tp : TrunkParams) (gp : GeneralParams)
    (tree : TreeStructure) (rng : RngState)
    (h1 : tree.cross_sections.length = 1) :
    (((generate_branches o fuel bp tp gp tree rng).1).cross_sections.getD 0
        default).depth = (tree.cross_sections.getD 0 default).depth ∧
    (((generate_branches o fuel bp tp gp tree rng).1).cross_sections.getD 0
        default).component_rings =
      (tree.cross_sections.getD 0 default).component_rings ∧
    (∀ j, 1 ≤ j →
      j < ((generate_branches o fuel bp tp gp tree rng).1).cross_sections.length →
      (((generate_branches o fuel bp tp gp tree rng).1).cross_sections.getD j
          default).depth < gp.max_depth ∧
      (((generate_branches o fuel bp tp gp tree rng).1).cross_sections.getD j
          default).component_rings ≠ [] ∧
      (((generate_branches o fuel bp tp gp tree rng).1).cross_sections.getD j
          default).children_indices.length ≤ 2) ∧
    ((tree.cross_sections.getD 0 default).children_indices = [] →
      (((generate_branches o fuel bp tp gp tree rng).1).cross_sections.getD 0
          default).children_indices.length ≤ 2) := by
  have hne : tree.cross_sections ≠ [] := by
    intro h
    rw [h] at h1
    exact absurd h1 (by simp)
  unfold generate_branches
  rw [if_neg hne]
  simp only
  have H := gcr_invariant o bp tp gp fuel tree.cross_sections 0 ⟨0, 1, 0⟩ 0 0 0
    rng (by omega)
  obtain ⟨H1, H2, ⟨l, H3a, H3b, H3c⟩, H4⟩ := H
  refine ⟨by rw [H3a], by rw [H3a], ?_, ?_⟩
  · intro j hj1 hj2
    have := H4 j (by omega) hj2
    exact ⟨this.2.1, this.2.2.1, this.1⟩
  · intro hbase
    rw [H3a]
    show ((tree.cross_sections.getD 0 default).children_indices ++ l).length ≤ 2
    rw [hbase]
    simpa using H3b

end Engine

namespace Engine

/-- Depth bound for the full engine pipeline: with `max_depth = N ≥ 1`,
every cross-section of the generated tree (trunk base, trunk/branch growth,
root system) has depth strictly below `N`. -/
theorem generate_tree_depth_lt (o : GeomOracle) (fuel : ℕ)
    (seed_rng : ℕ → RngState) (p : TreeParameters)
    (hN : 1 ≤ p.general.max_depth) :
    ∀ j, j < (generate_tree o fuel seed_rng p).cross_sections.length →
      ((generate_tree o fuel seed_rng p).cross_sections.getD j default).depth <
        p.general.max_depth := by
  have hfacts := generate_branches_facts o fuel p.branching p.trunk p.general
    (trunk_system_generate o p.trunk ⟨[], []⟩) (seed_rng p.general.seed)
    (by rw [trunk_system_cross_sections]; rfl)
  unfold generate_tree
  simp only
  intro j hj
  rw [twig_system_cross_sections] at hj ⊢
  refine root_system_generate_preserves
    (fun x => x.depth < p.general.max_depth) p.roots _ ?_ ?_ ?_ j hj
  · intro x c h
    exact h
  · intro center rings _
    exact hN
  · intro i hi
    by_cases hi0 : i = 0
    · subst hi0
      rw [hfacts.1, trunk_system_cross_sections]
      exact hN
    · exact (hfacts.2.2.1 i (by omega) hi).1

/-- Non-empty rings for the full engine pipeline: every cross-section of the
generated tree has a non-empty component-ring list, for every parameter
bundle, oracle, seed and fuel. -/
theorem generate_tree_rings_nonempty (o : GeomOracle) (fuel : ℕ)
    (seed_rng : ℕ → RngState) (p : TreeParameters) :
    ∀ j, j < (generate_tree o fuel seed_rng p).cross_sections.length →
      ((generate_tree o fuel seed_rng p).cross_sections.getD j
          default).component_rings ≠ [] := by
  have hfacts := generate_branches_facts o fuel p.branching p.trunk p.general
    (trunk_system_generate o p.trunk ⟨[], []⟩) (seed_rng p.general.seed)
    (by rw [trunk_system_cross_sections]; rfl)
  have hbase0 : ((trunk_system_generate o p.trunk
      (⟨[], []⟩ : TreeStructure)).cross_sections.getD 0 default).component_rings =
      generate_trunk_rings o p.trunk 0 := by
    rw [trunk_system_cross_sections]
    rfl
  unfold generate_tree
  simp only
  intro j hj
  rw [twig_system_cross_sections] at hj ⊢
  refine root_system_generate_preserves
    (fun x => x.component_rings ≠ []) p.roots _ ?_ ?_ ?_ j hj
  · intro x c h
    exact h
  · intro center rings hlen
    show rings ≠ []
    rw [← List.length_pos, hlen, hfacts.2.1, hbase0, List.length_pos]
    exact generate_trunk_rings_nonempty o p.trunk 0
  · intro i hi
    by_cases hi0 : i = 0
    · subst hi0
      rw [hfacts.2.1, hbase0]
      exact generate_trunk_rings_nonempty o p.trunk 0
    · exact (hfacts.2.2.1 i (by omega) hi).2.1

end Engine

namespace TreeRs

theorem length_push_child_rs (cs : List BranchCrossSection) (i c : ℕ) :
    (push_child cs i c).length = cs.length := by
  simp [push_child]

theorem getD_push_child_ne_rs (cs : List BranchCrossSection) (i c j : ℕ)
    (h : i ≠ j) : (push_child cs i c).getD j default = cs.getD j default := by
  unfold push_child
  rw [getD_set_ne _ _ _ _ _ h]

theorem getD_push_child_self_rs (cs : List BranchCrossSection) (i c : ℕ)
    (h : i < cs.length) :
    (push_child cs i c).getD i default =
      { cs.getD i default with
        children_indices := (cs.getD i default).children_indices ++ [c] } := by
  unfold push_child
  rw [getD_set_self _ _ _ _ h]

theorem append_one_length_rs (cs : List BranchCrossSection) (idx : ℕ)
    (new_cs : BranchCrossSection) :
    (push_child cs idx cs.length ++ [new_cs]).length = cs.length + 1 := by
  simp [length_push_child_rs]

theorem append_one_getD_ne_rs (cs : List BranchCrossSection) (idx : ℕ)
    (new_cs : BranchCrossSection) (j : ℕ) (hj : j < cs.length) (hne : j ≠ idx) :
    (push_child cs idx cs.length ++ [new_cs]).getD j default = cs.getD j default := by
  rw [getD_append_left _ _ _ _ (by rw [length_push_child_rs]; omega)]
  exact getD_push_child_ne_rs _ _ _ _ (fun h => hne h.symm)

theorem append_one_getD_idx_rs (cs : List BranchCrossSection) (idx : ℕ)
    (new_cs : BranchCrossSection) (hidx : idx < cs.length) :
    (push_child cs idx cs.length ++ [new_cs]).getD idx default =
      { cs.getD idx default with
        children_indices := (cs.getD idx default).children_indices ++
          [cs.length] } := by
  rw [getD_append_left _ _ _ _ (by rw [length_push_child_rs]; omega)]
  exact getD_push_child_self_rs _ _ _ hidx

theorem append_one_getD_new_rs (cs : List BranchCrossSection) (idx : ℕ)
    (new_cs : BranchCrossSection) :
    (push_child cs idx cs.length ++ [new_cs]).getD cs.length default = new_cs := by
  rw [getD_append_right _ _ _ _ (by rw [length_push_child_rs])]
  simp [length_push_child_rs]

/-- Postcondition of one `generate_root_recursive_static` call: the state
only grows, entries other than the current one are untouched, the current
entry keeps its depth and rings (only its child list can change), and every
appended root cross-section has depth between 1 and 26 and a non-empty ring
list. -/
def trr_post (cs R : List BranchCrossSection) (idx : ℕ) : Prop :=
  cs.length ≤ R.length ∧
  (∀ j, j < cs.length → j ≠ idx → R.getD j default = cs.getD j default) ∧
  ((R.getD idx default).depth = (cs.getD idx default).depth ∧
    (R.getD idx default).component_rings = (cs.getD idx default).component_rings) ∧
  (∀ j, cs.length ≤ j → j < R.length →
    1 ≤ (R.getD j default).depth ∧ (R.getD j default).depth ≤ 26 ∧
    (R.getD j default).component_rings ≠ [])

theorem trr_post_refl (cs : List BranchCrossSection) (idx : ℕ) :
    trr_post cs cs idx :=
  ⟨le_refl _, fun _ _ _ => rfl, ⟨rfl, rfl⟩, fun j hj1 hj2 => absurd hj1 (by omega)⟩

end TreeRs

namespace TreeRs

/-- Composition of the append-and-grow step of the root recursion. -/
theorem trr_main_compose (o : GeomOracle) (n : ℕ)
    (cs : List BranchCrossSection) (idx : ℕ) (next_cs : BranchCrossSection)
    (dir : Vec3) (d : ℕ) (r : RngState) (a b c e f g : ℚ)
    (hidx : idx < cs.length) (h1 : 1 ≤ next_cs.depth)
    (h26 : next_cs.depth ≤ 26) (hr : next_cs.component_rings ≠ [])
    (IH : ∀ (cs1 : List BranchCrossSection) (idx1 : ℕ) (dir1 : Vec3) (d1 : ℕ)
      (r1 : RngState) (a1 b1 c1 e1 f1 g1 : ℚ), idx1 < cs1.length →
      trr_post cs1
        ((generate_root_recursive_static o n cs1 idx1 dir1 d1 r1 a1 b1 c1 e1
            f1 g1).1)
        idx1) :
    trr_post cs
      ((generate_root_recursive_static o n
          (push_child cs idx cs.length ++ [next_cs]) cs.length dir d r a b c
          e f g).1)
      idx ∧
    cs.length <
      ((generate_root_recursive_static o n
          (push_child cs idx cs.length ++ [next_cs]) cs.length dir d r a b c
          e f g).1).length := by
  have hlen1 := append_one_length_rs cs idx next_cs
  have H := IH (push_child cs idx cs.length ++ [next_cs]) cs.length dir d r
    a b c e f g (by omega)
  set R := (generate_root_recursive_static o n
    (push_child cs idx cs.length ++ [next_cs]) cs.length dir d r a b c e f
    g).1
  obtain ⟨H1, H2, ⟨H3a, H3b⟩, H4⟩ := H
  have hRlen : cs.length < R.length := by omega
  refine ⟨⟨by omega, ?_, ?_, ?_⟩, hRlen⟩
  · intro j hj hne
    rw [H2 j (by omega) (by omega), append_one_getD_ne_rs cs idx next_cs j hj hne]
  · have e1 : R.getD idx default =
        (push_child cs idx cs.length ++ [next_cs]).getD idx default :=
      H2 idx (by omega) (by omega)
    rw [e1, append_one_getD_idx_rs cs idx next_cs hidx]
    exact ⟨rfl, rfl⟩
  · intro j hj1 hj2
    rcases eq_or_lt_of_le hj1 with hj | hj
    · subst hj
      rw [append_one_getD_new_rs cs idx next_cs] at H3a H3b
      rw [H3a, H3b]
      exact ⟨h1, h26, hr⟩
    · exact H4 j (by omega) hj2

/-- Composition with a follow-up recursion started at a freshly appended
index (the side-root branch of the root recursion). -/
theorem trr_then_compose (o : GeomOracle) (n : ℕ)
    (cs T : List BranchCrossSection) (idx k : ℕ) (dir : Vec3) (d : ℕ)
    (r : RngState) (a b c e f g : ℚ)
    (hidx : idx < cs.length) (hk : cs.length ≤ k) (hkT : k < T.length)
    (hT : trr_post cs T idx)
    (IH : ∀ (cs1 : List BranchCrossSection) (idx1 : ℕ) (dir1 : Vec3) (d1 : ℕ)
      (r1 : RngState) (a1 b1 c1 e1 f1 g1 : ℚ), idx1 < cs1.length →
      trr_post cs1
        ((generate_root_recursive_static o n cs1 idx1 dir1 d1 r1 a1 b1 c1 e1
            f1 g1).1)
        idx1) :
    trr_post cs
      ((generate_root_recursive_static o n T k dir d r a b c e f g).1) idx := by
  obtain ⟨T1, T2, ⟨T3a, T3b⟩, T4⟩ := hT
  have H := IH T k dir d r a b c e f g hkT
  set R := (generate_root_recursive_static o n T k dir d r a b c e f g).1
  obtain ⟨H1, H2, ⟨H3a, H3b⟩, H4⟩ := H
  refine ⟨by omega, ?_, ?_, ?_⟩
  · intro j hj hne
    rw [H2 j (by omega) (by omega)]
    exact T2 j hj hne
  · rw [H2 idx (by omega) (by omega)]
    exact ⟨T3a, T3b⟩
  · intro j hj1 hj2
    by_cases hjk : j = k
    · subst hjk
      have := T4 j hj1 hkT
      exact ⟨by rw [H3a]; exact this.1, by rw [H3a]; exact this.2.1,
        by rw [H3b]; exact this.2.2⟩
    · by_cases hjT : j < T.length
      · rw [H2 j hjT hjk]
        exact T4 j hj1 hjT
      · exact H4 j (by omega) hj2

/-- Main structural invariant of the `tree-rs` root recursion. -/
theorem trr_invariant (o : GeomOracle) :
    ∀ (fuel : ℕ) (cs : List BranchCrossSection) (idx : ℕ) (dir : Vec3)
      (d : ℕ) (r : RngState) (a b c e f g : ℚ), idx < cs.length →
      trr_post cs
        ((generate_root_recursive_static o fuel cs idx dir d r a b c e f g).1)
        idx := by
  intro fuel
  induction fuel with
  | zero =>
    intro cs idx dir d r a b c e f g _
    exact trr_post_refl cs idx
  | succ n ih =>
    intro cs idx dir d r a b c e f g hidx
    have hmain := fun (hd25 : ¬ 25 < d) next_cs dir2 r2 a2 =>
      trr_main_compose o n cs idx next_cs dir2 (d + 1) r2 a2 b c e f g hidx
    simp only [generate_root_recursive_static]
    split_ifs with h1 h2 h3 h4 h5
    · exact trr_post_refl cs idx
    · exact trr_post_refl cs idx
    all_goals
      have hd25 : ¬ 25 < d := fun h => h1 (Or.inl h)
      have h1d : (1 : ℕ) ≤ d + 1 := by omega
      have h26 : d + 1 ≤ 26 := by omega
    · -- depth > 2, side branch taken
      refine trr_then_compose o n cs _ idx cs.length _ _ _ _ _ _ _ _ _ hidx
        (le_refl _) ?_ ?_ ih
      · exact (trr_main_compose o n cs idx _ _ _ _ _ _ _ _ _ _ hidx
          h1d h26 (by simp) ih).2
      · exact (trr_main_compose o n cs idx _ _ _ _ _ _ _ _ _ _ hidx
          h1d h26 (by simp) ih).1
    · exact (trr_main_compose o n cs idx _ _ _ _ _ _ _ _ _ _ hidx
        h1d h26 (by simp) ih).1
    · refine trr_then_compose o n cs _ idx cs.length _ _ _ _ _ _ _ _ _ hidx
        (le_refl _) ?_ ?_ ih
      · exact (trr_main_compose o n cs idx _ _ _ _ _ _ _ _ _ _ hidx
          h1d h26 (by simp) ih).2
      · exact (trr_main_compose o n cs idx _ _ _ _ _ _ _ _ _ _ hidx
          h1d h26 (by simp) ih).1
    · exact (trr_main_compose o n cs idx _ _ _ _ _ _ _ _ _ _ hidx
        h1d h26 (by simp) ih).1

end TreeRs

namespace TreeRs

/-- Facts about one push-then-grow root step on generic data: the pushed
entry gains exactly one child and keeps its other fields, nothing else old
changes, and all appended cross-sections have depth between 1 and 26 and
non-empty rings. -/
theorem trr_push_grow_facts (o : GeomOracle) (n : ℕ)
    (X : List BranchCrossSection) (idx : ℕ) (next_cs : BranchCrossSection)
    (dir : Vec3) (d : ℕ) (r : RngState) (a b c e f g : ℚ)
    (hidx : idx < X.length) (h1 : 1 ≤ next_cs.depth)
    (h26 : next_cs.depth ≤ 26) (hr : next_cs.component_rings ≠ []) :
    X.length ≤ ((generate_root_recursive_static o n
        (push_child X idx X.length ++ [next_cs]) X.length dir d r a b c e f
        g).1).length ∧
    (∀ j, j < X.length → j ≠ idx →
      ((generate_root_recursive_static o n
          (push_child X idx X.length ++ [next_cs]) X.length dir d r a b c e
          f g).1).getD j default = X.getD j default) ∧
    (((generate_root_recursive_static o n
        (push_child X idx X.length ++ [next_cs]) X.length dir d r a b c e f
        g).1).getD idx default).children_indices.length =
      (X.getD idx default).children_indices.length + 1 ∧
    (((generate_root_recursive_static o n
        (push_child X idx X.length ++ [next_cs]) X.length dir d r a b c e f
        g).1).getD idx default).depth = (X.getD idx default).depth ∧
    (((generate_root_recursive_static o n
        (push_child X idx X.length ++ [next_cs]) X.length dir d r a b c e f
        g).1).getD idx default).component_rings =
      (X.getD idx default).component_rings ∧
    (∀ j, X.length ≤ j →
      j < ((generate_root_recursive_static o n
          (push_child X idx X.length ++ [next_cs]) X.length dir d r a b c e
          f g).1).length →
      1 ≤ (((generate_root_recursive_static o n
          (push_child X idx X.length ++ [next_cs]) X.length dir d r a b c e
          f g).1).getD j default).depth ∧
      (((generate_root_recursive_static o n
          (push_child X idx X.length ++ [next_cs]) X.length dir d r a b c e
          f g).1).getD j default).depth ≤ 26 ∧
      (((generate_root_recursive_static o n
          (push_child X idx X.length ++ [next_cs]) X.length dir d r a b c e
          f g).1).getD j default).component_rings ≠ []) := by
  have hlen1 := append_one_length_rs X idx next_cs
  have H := trr_invariant o n (push_child X idx X.length ++ [next_cs])
    X.length dir d r a b c e f g (by omega)
  set R := (generate_root_recursive_static o n
    (push_child X idx X.length ++ [next_cs]) X.length dir d r a b c e f g).1
  obtain ⟨H1, H2, ⟨H3a, H3b⟩, H4⟩ := H
  have hidx_gd : R.getD idx default =
      { X.getD idx default with
        children_indices := (X.getD idx default).children_indices ++
          [X.length] } := by
    rw [H2 idx (by omega) (by omega)]
    exact append_one_getD_idx_rs X idx next_cs hidx
  refine ⟨by omega, ?_, ?_, ?_, ?_, ?_⟩
  · intro j hj hne
    rw [H2 j (by omega) (by omega)]
    exact append_one_getD_ne_rs X idx next_cs j hj hne
  · rw [hidx_gd]
    simp
  · rw [hidx_gd]
  · rw [hidx_gd]
  · intro j hj1 hj2
    rcases eq_or_lt_of_le hj1 with hj | hj
    · subst hj
      rw [append_one_getD_new_rs X idx next_cs] at H3a H3b
      exact ⟨by rw [H3a]; exact h1, by rw [H3a]; exact h26,
        by rw [H3b]; exact hr⟩
    · exact H4 j (by omega) hj2

/-- Facts about one iteration of the per-root loop of

`generate_root_system`: the base cross-section gains exactly one child and
keeps its other fields, nothing else old changes, and all appended
cross-sections are root cross-sections with depth between 1 and 26 and
non-empty rings. -/
theorem root_loop_step_facts (o : GeomOracle) (fuel : ℕ) (root_idx : ℕ)
    (root_center : Vec3) (parent_rings : List ComponentRing)
    (rd rsp : ℚ) (dens : ℕ) (rsl rt slv : ℚ)
    (X : List BranchCrossSection) (r : RngState) (i : ℕ)
    (hidx : root_idx < X.length) :
    X.length ≤ (root_loop_step o fuel root_idx root_center parent_rings rd
        rsp dens rsl rt slv (X, r) i).1.length ∧
    (∀ j, j < X.length → j ≠ root_idx →
      (root_loop_step o fuel root_idx root_center parent_rings rd rsp dens
          rsl rt slv (X, r) i).1.getD j default = X.getD j default) ∧
    ((root_loop_step o fuel root_idx root_center parent_rings rd rsp dens
          rsl rt slv (X, r) i).1.getD root_idx default).children_indices.length =
        (X.getD root_idx default).children_indices.length + 1 ∧
    ((root_loop_step o fuel root_idx root_center parent_rings rd rsp dens
          rsl rt slv (X, r) i).1.getD root_idx default).depth =
        (X.getD root_idx default).depth ∧
    ((root_loop_step o fuel root_idx root_center parent_rings rd rsp dens
          rsl rt slv (X, r) i).1.getD root_idx default).component_rings =
        (X.getD root_idx default).component_rings ∧
    (∀ j, X.length ≤ j →
      j < (root_loop_step o fuel root_idx root_center parent_rings rd rsp
          dens rsl rt slv (X, r) i).1.length →
      1 ≤ ((root_loop_step o fuel root_idx root_center parent_rings rd rsp
          dens rsl rt slv (X, r) i).1.getD j default).depth ∧
      ((root_loop_step o fuel root_idx root_center parent_rings rd rsp dens
          rsl rt slv (X, r) i).1.getD j default).depth ≤ 26 ∧
      ((root_loop_step o fuel root_idx root_center parent_rings rd rsp dens
          rsl rt slv (X, r) i).1.getD j default).component_rings ≠ []) := by
  unfold root_loop_step
  simp only
  refine trr_push_grow_facts o fuel X root_idx _ _ 1 r rsl rd rsp rt slv _
    hidx (le_refl 1) ?_ ?_
  · show (1 : ℕ) ≤ 26
    omega
  · simp

end TreeRs

namespace TreeRs

/-- Facts about the whole per-root loop of `generate_root_system`, by
induction on the number of iterations: the base cross-section gains exactly
one child per iteration and keeps its other fields, nothing else old
changes, and all appended cross-sections have depth between 1 and 26 and
non-empty rings. -/
theorem root_fold_facts (o : GeomOracle) (fuel root_idx : ℕ)
    (root_center : Vec3) (parent_rings : List ComponentRing) (rd rsp : ℚ)
    (dens : ℕ) (rsl rt slv : ℚ) :
    ∀ (k : ℕ) (cs : List BranchCrossSection) (rng : RngState),
      root_idx < cs.length →
      cs.length ≤ ((List.range k).foldl
          (root_loop_step o fuel root_idx root_center parent_rings rd rsp
            dens rsl rt slv) (cs, rng)).1.length ∧
      (∀ j, j < cs.length → j ≠ root_idx →
        (((List.range k).foldl (root_loop_step o fuel root_idx root_center
            parent_rings rd rsp dens rsl rt slv) (cs, rng)).1).getD j default =
          cs.getD j default) ∧
      ((((List.range k).foldl (root_loop_step o fuel root_idx root_center
          parent_rings rd rsp dens rsl rt slv) (cs, rng)).1).getD root_idx
          default).children_indices.length =
        (cs.getD root_idx default).children_indices.length + k ∧
      ((((List.range k).foldl (root_loop_step o fuel root_idx root_center
          parent_rings rd rsp dens rsl rt slv) (cs, rng)).1).getD root_idx
          default).depth = (cs.getD root_idx default).depth ∧
      ((((List.range k).foldl (root_loop_step o fuel root_idx root_center
          parent_rings rd rsp dens rsl rt slv) (cs, rng)).1).getD root_idx
          default).component_rings = (cs.getD root_idx default).component_rings ∧
      (∀ j, cs.length ≤ j →
        j < (((List.range k).foldl (root_loop_step o fuel root_idx
            root_center parent_rings rd rsp dens rsl rt slv) (cs, rng)).1).length →
        1 ≤ ((((List.range k).foldl (root_loop_step o fuel root_idx
            root_center parent_rings rd rsp dens rsl rt slv)
            (cs, rng)).1).getD j default).depth ∧
        ((((List.range k).foldl (root_loop_step o fuel root_idx root_center
            parent_rings rd rsp dens rsl rt slv) (cs, rng)).1).getD j
            default).depth ≤ 26 ∧
        ((((List.range k).foldl (root_loop_step o fuel root_idx root_center
            parent_rings rd rsp dens rsl rt slv) (cs, rng)).1).getD j
            default).component_rings ≠ []) := by
  intro k
  induction k with
  | zero =>
    intro cs rng hidx
    refine ⟨le_refl _, fun _ _ _ => rfl, by simp, rfl, rfl,
      fun j hj1 hj2 => absurd hj1 (by simp at hj2; omega)⟩
  | succ k ih =>
    intro cs rng hidx
    rw [List.range_succ, List.foldl_append, List.foldl_cons, List.foldl_nil]
    obtain ⟨P1, P2, P3, P4, P5, P6⟩ := ih cs rng hidx
    set prev := (List.range k).foldl (root_loop_step o fuel root_idx
      root_center parent_rings rd rsp dens rsl rt slv) (cs, rng) with hprev
    have hidx2 : root_idx < prev.1.length := by omega
    obtain ⟨S1, S2, S3, S4, S5, S6⟩ := root_loop_step_facts o fuel root_idx
      root_center parent_rings rd rsp dens rsl rt slv prev.1 prev.2 k hidx2
    rw [show (prev.1, prev.2) = prev from rfl] at S1 S2 S3 S4 S5 S6
    refine ⟨by omega, ?_, ?_, ?_, ?_, ?_⟩
    · intro j hj hne
      rw [S2 j (by omega) hne, P2 j hj hne]
    · rw [S3, P3]
      omega
    · rw [S4, P4]
    · rw [S5, P5]
    · intro j hj1 hj2
      by_cases hjp : j < prev.1.length
      · have hne : j ≠ root_idx := by omega
        rw [S2 j hjp hne]
        exact P6 j hj1 hjp
      · exact S6 j (by omega) hj2

end TreeRs

namespace TreeRs

/-- Facts about `generate_root_system`: the base cross-section gains exactly
`root_density` children (one per lateral root) and keeps its depth and
rings; no other pre-existing cross-section changes; and every appended root
cross-section has depth between 1 and 26 and a non-empty ring list. -/
theorem generate_root_system_facts (o : GeomOracle) (fuel : ℕ)
    (cs : List BranchCrossSection) (root_idx : ℕ) (rng : RngState)
    (rd rsp : ℚ) (dens : ℕ) (rsl rt slv : ℚ) (hidx : root_idx < cs.length) :
    cs.length ≤ ((generate_root_system o fuel cs root_idx rng rd rsp dens
        rsl rt slv).1).length ∧
    (∀ j, j < cs.length → j ≠ root_idx →
      (((generate_root_system o fuel cs root_idx rng rd rsp dens rsl rt
          slv).1)).getD j default = cs.getD j default) ∧
    ((((generate_root_system o fuel cs root_idx rng rd rsp dens rsl rt
        slv).1)).getD root_idx default).children_indices.length =
      (cs.getD root_idx default).children_indices.length + dens ∧
    ((((generate_root_system o fuel cs root_idx rng rd rsp dens rsl rt
        slv).1)).getD root_idx default).depth = (cs.getD root_idx default).depth ∧
    ((((generate_root_system o fuel cs root_idx rng rd rsp dens rsl rt
        slv).1)).getD root_idx default).component_rings =
      (cs.getD root_idx default).component_rings ∧
    (∀ j, cs.length ≤ j →
      j < (((generate_root_system o fuel cs root_idx rng rd rsp dens rsl rt
          slv).1)).length →
      1 ≤ ((((generate_root_system o fuel cs root_idx rng rd rsp dens rsl
          rt slv).1)).getD j default).depth ∧
      ((((generate_root_system o fuel cs root_idx rng rd rsp dens rsl rt
          slv).1)).getD j default).depth ≤ 26 ∧
      ((((generate_root_system o fuel cs root_idx rng rd rsp dens rsl rt
          slv).1)).getD j default).component_rings ≠ []) := by
  unfold generate_root_system
  simp only
  exact root_fold_facts o fuel root_idx _ _ rd rsp dens rsl rt slv dens cs
    rng hidx

end TreeRs

theorem length_flatMap_pair {α β : Type _} (l : List α) (f g : α → β) :
    (l.flatMap (fun i => [f i, g i])).length = 2 * l.length := by
  induction l with
  | nil => rfl
  | cons a l ih => simp [ih]; omega

theorem length_flatMap_six {α β : Type _} (l : List α)
    (f1 f2 f3 f4 f5 f6 : α → β) :
    (l.flatMap (fun i => [f1 i, f2 i, f3 i, f4 i, f5 i, f6 i])).length =
      6 * l.length := by
  induction l with
  | nil => rfl
  | cons a l ih => simp [ih]; omega

namespace TreeRs

theorem connect_facts (o : GeomOracle) (pg cg : CrossSectionGeometry)
    (pd cd : ℕ) (m : RingMesh) :
    (connect_cross_section_perimeters_with_depth o pg cg pd cd m).vertices.length =
      m.vertices.length + 2 * min pg.points.length cg.points.length ∧
    (connect_cross_section_perimeters_with_depth o pg cg pd cd m).indices.length =
      m.indices.length + 6 * min pg.points.length cg.points.length ∧
    (∀ k ∈ (connect_cross_section_perimeters_with_depth o pg cg pd cd m).indices,
      k ∈ m.indices ∨
      k < m.vertices.length + 2 * min pg.points.length cg.points.length) := by
  unfold connect_cross_section_perimeters_with_depth
  simp only
  refine ⟨?_, ?_, ?_⟩
  · rw [List.length_append, length_flatMap_pair, List.length_range]
  · rw [List.length_append, length_flatMap_six, List.length_range]
  · intro k hk
    rw [List.mem_append] at hk
    rcases hk with hk | hk
    · exact Or.inl hk
    · right
      rw [List.mem_flatMap] at hk
      obtain ⟨i, hi, hmem⟩ := hk
      rw [List.mem_range] at hi
      have hnext : (i + 1) % min pg.points.length cg.points.length <
          min pg.points.length cg.points.length :=
        Nat.mod_lt _ (by omega)
      simp only [List.mem_cons, List.not_mem_nil, or_false] at hmem
      rcases hmem with rfl | rfl | rfl | rfl | rfl | rfl <;> omega

/-- Invariant of the stitching fold: the index-buffer length tracks six
times the accumulated band resolution, and every index is a valid vertex
index. -/
theorem mesh_inner_fold_facts (o : GeomOracle)
    (geos : List CrossSectionGeometry)
    (cross_sections : List BranchCrossSection) (i d1 : ℕ) :
    ∀ (children : List ℕ) (m : RingMesh) (n : ℕ),
      m.indices.length = 6 * n →
      (∀ k ∈ m.indices, k < m.vertices.length) →
      m.vertices.length = 2 * n →
      ((children.foldl (fun m2 child_idx =>
          connect_cross_section_perimeters_with_depth o
            (geos.getD i ⟨[], [], [], default⟩)
            (geos.getD child_idx ⟨[], [], [], default⟩) d1
            ((cross_sections.getD child_idx default).depth) m2) m).indices.length =
        6 * (children.foldl (fun n2 child_idx =>
          n2 + min (geos.getD i ⟨[], [], [], default⟩).points.length
            (geos.getD child_idx ⟨[], [], [], default⟩).points.length) n)) ∧
      (∀ k ∈ (children.foldl (fun m2 child_idx =>
          connect_cross_section_perimeters_with_depth o
            (geos.getD i ⟨[], [], [], default⟩)
            (geos.getD child_idx ⟨[], [], [], default⟩) d1
            ((cross_sections.getD child_idx default).depth) m2) m).indices,
        k < (children.foldl (fun m2 child_idx =>
          connect_cross_section_perimeters_with_depth o
            (geos.getD i ⟨[], [], [], default⟩)
            (geos.getD child_idx ⟨[], [], [], default⟩) d1
            ((cross_sections.getD child_idx default).depth) m2) m).vertices.length) ∧
      ((children.foldl (fun m2 child_idx =>
          connect_cross_section_perimeters_with_depth o
            (geos.getD i ⟨[], [], [], default⟩)
            (geos.getD child_idx ⟨[], [], [], default⟩) d1
            ((cross_sections.getD child_idx default).depth) m2) m).vertices.length =
        2 * (children.foldl (fun n2 child_idx =>
          n2 + min (geos.getD i ⟨[], [], [], default⟩).points.length
            (geos.getD child_idx ⟨[], [], [], default⟩).points.length) n)) := by
  intro children
  induction children with
  | nil =>
    intro m n h1 h2 h3
    exact ⟨h1, h2, h3⟩
  | cons c children ih =>
    intro m n h1 h2 h3
    rw [List.foldl_cons, List.foldl_cons]
    obtain ⟨C1, C2, C3⟩ := connect_facts o (geos.getD i ⟨[], [], [], default⟩)
      (geos.getD c ⟨[], [], [], default⟩) d1
      ((cross_sections.getD c default).depth) m
    refine ih _ _ ?_ ?_ ?_
    · rw [C2, h1]
      ring
    · intro k hk
      rw [C1]
      rcases C3 k hk with hin | hlt
    
      · have := h2 k hin
        omega
      · omega
    · rw [C1, h3]
      ring

theorem length_flatMap_triple {α β : Type _} (l : List α) (f g h : α → β) :
    (l.flatMap (fun i => [f i, g i, h i])).length = 3 * l.length := by
  induction l with
  | nil => rfl
  | cons a l ih => simp [ih]; omega

theorem length_flatten_vec3 (l : List Vec3) :
    (TreeRs.flatten_vec3 l).length = 3 * l.length :=
  length_flatMap_triple l _ _ _

end TreeRs

namespace TreeRs

theorem mesh_outer_fold_facts (o : GeomOracle)
    (geos : List CrossSectionGeometry)
    (cross_sections : List BranchCrossSection) :
    ∀ (pairs : List (ℕ × BranchCrossSection)) (m : RingMesh) (n : ℕ),
      m.indices.length = 6 * n →
      (∀ k ∈ m.indices, k < m.vertices.length) →
      m.vertices.length = 2 * n →
      ((pairs.foldl (fun m2 pair =>
          pair.2.children_indices.foldl (fun m3 child_idx =>
            connect_cross_section_perimeters_with_depth o
              (geos.getD pair.1 ⟨[], [], [], default⟩)
              (geos.getD child_idx ⟨[], [], [], default⟩) pair.2.depth
              ((cross_sections.getD child_idx default).depth) m3) m2) m).indices.length =
        6 * (pairs.foldl (fun n2 pair =>
          pair.2.children_indices.foldl (fun n3 child_idx =>
            n3 + min (geos.getD pair.1 ⟨[], [], [], default⟩).points.length
              (geos.getD child_idx ⟨[], [], [], default⟩).points.length) n2) n)) ∧
      (∀ k ∈ (pairs.foldl (fun m2 pair =>
          pair.2.children_indices.foldl (fun m3 child_idx =>
            connect_cross_section_perimeters_with_depth o
              (geos.getD pair.1 ⟨[], [], [], default⟩)
              (geos.getD child_idx ⟨[], [], [], default⟩) pair.2.depth
              ((cross_sections.getD child_idx default).depth) m3) m2) m).indices,
        k < (pairs.foldl (fun m2 pair =>
          pair.2.children_indices.foldl (fun m3 child_idx =>
            connect_cross_section_perimeters_with_depth o
              (geos.getD pair.1 ⟨[], [], [], default⟩)
              (geos.getD child_idx ⟨[], [], [], default⟩) pair.2.depth
              ((cross_sections.getD child_idx default).depth) m3) m2) m).vertices.length) ∧
      ((pairs.foldl (fun m2 pair =>
          pair.2.children_indices.foldl (fun m3 child_idx =>
            connect_cross_section_perimeters_with_depth o
              (geos.getD pair.1 ⟨[], [], [], default⟩)
              (geos.getD child_idx ⟨[], [], [], default⟩) pair.2.depth
              ((cross_sections.getD child_idx default).depth) m3) m2) m).vertices.length =
        2 * (pairs.foldl (fun n2 pair =>
          pair.2.children_indices.foldl (fun n3 child_idx =>
            n3 + min (geos.getD pair.1 ⟨[], [], [], default⟩).points.length
              (geos.getD child_idx ⟨[], [], [], default⟩).points.length) n2) n)) := by
  intro pairs
  induction pairs with
  | nil =>
    intro m n h1 h2 h3
    exact ⟨h1, h2, h3⟩
  | cons p pairs ih =>
    intro m n h1 h2 h3
    rw [List.foldl_cons, List.foldl_cons]
    obtain ⟨S1, S2, S3⟩ := mesh_inner_fold_facts o geos cross_sections p.1
      p.2.depth p.2.children_indices m n h1 h2 h3
    exact ih _ _ S1 S2 S3

/-- Structural facts about the generated mesh: the index buffer holds
exactly six indices per band quad (one band per parent-to-child edge, of
width the minimum of the two perimeter resolutions), every index is a valid
vertex index, and two vertices are emitted per band step. -/
theorem generate_mesh_facts (o : GeomOracle)
    (cross_sections : List BranchCrossSection) (ring_resolution : ℕ) :
    (generate_mesh o cross_sections ring_resolution).indices.length =
      6 * edge_band_sum o cross_sections ring_resolution ∧
    (∀ k ∈ (generate_mesh o cross_sections ring_resolution).indices,
      k < (generate_mesh o cross_sections ring_resolution).vertices.length) ∧
    (generate_mesh o cross_sections ring_resolution).vertices.length =
      2 * edge_band_sum o cross_sections ring_resolution := by
  unfold generate_mesh edge_band_sum
  simp only
  exact mesh_outer_fold_facts o _ cross_sections cross_sections.enum
    ⟨[], [], [], [], []⟩ 0 rfl (by intro k hk; simp at hk) rfl

end TreeRs

theorem sum_ring_areas_cons (r : ComponentRingR) (l : List ComponentRingR) :
    sum_ring_areas (r :: l) =
      (pi32 : ℝ) * r.radius * r.radius + sum_ring_areas l := by
  simp [sum_ring_areas]

theorem sum_ring_areas_map_range (k : ℕ) (f : ℕ → ComponentRingR) (c : ℝ)
    (hf : ∀ i, (f i).radius = c) :
    sum_ring_areas ((List.range k).map f) = (k : ℝ) * ((pi32 : ℝ) * c * c) := by
  induction k with
  | zero => simp [sum_ring_areas]
  | succ k ih =>
    rw [List.range_succ, List.map_append]
    simp only [sum_ring_areas, List.map_append, List.sum_append] at ih ⊢
    rw [ih]
    simp [hf]
    ring_nf

/-- Area conservation of the multi-ring trunk decomposition, in the
real-number translation: when more than one ring is produced, the sum of
the ring areas `π r²` equals the target area `π (0.5 size)²` exactly. -/
theorem generate_trunk_rings_real_area (params : TrunkParams) (height : ℚ)
    (h : 1 < Engine.ring_count_of params.buttressing) :
    sum_ring_areas (generate_trunk_rings_real params height) =
      (pi32 : ℝ) * (1/2 * (params.size : ℝ)) * (1/2 * (params.size : ℝ)) := by
  have hpi : (0 : ℝ) < (pi32 : ℝ) := by
    rw [show pi32 = 13176795 / 4194304 from rfl]
    push_cast
    norm_num
  set n := Engine.ring_count_of params.buttressing with hn
  have hne1 : n ≠ 1 := by omega
  have hnpos : (0 : ℝ) < (n : ℝ) := by
    have h0 : 0 < n := by omega
    exact_mod_cast h0
  unfold generate_trunk_rings_real
  rw [← hn, if_neg hne1]
  set R : ℝ := 1/2 * (params.size : ℝ) with hR
  set apr : ℝ := (pi32 : ℝ) * R * R / (n : ℝ) with hapr
  have happ_nonneg : (0 : ℝ) ≤ (pi32 : ℝ) * R * R := by
    rw [mul_assoc]
    exact mul_nonneg hpi.le (mul_self_nonneg R)
  have hapr_nonneg : 0 ≤ apr / (pi32 : ℝ) :=
    div_nonneg (div_nonneg happ_nonneg hnpos.le) hpi.le
  have hsq : (pi32 : ℝ) * Real.sqrt (apr / (pi32 : ℝ)) *
      Real.sqrt (apr / (pi32 : ℝ)) = apr := by
    rw [mul_assoc, Real.mul_self_sqrt hapr_nonneg]
    field_simp
  rw [sum_ring_areas_cons]
  rw [sum_ring_areas_map_range (n - 1) _ (Real.sqrt (apr / (pi32 : ℝ)))
    (fun i => rfl)]
  simp only
  rw [hsq]
  have hcast : ((n - 1 : ℕ) : ℝ) = (n : ℝ) - 1 := by
    have h1 : 1 ≤ n := by omega
    push_cast [h1]
    ring
  rw [hcast, hapr]
  field_simp
  ring

theorem sum_map_const_range (k : ℕ) (c : ℝ) :
    ((List.range k).map (fun _ => c)).sum = (k : ℝ) * c := by
  induction k with
  | zero => simp
  | succ k ih =>
    rw [List.range_succ, List.map_append, List.sum_append]
    simp [ih]
    ring


/-! Further list helpers for the claim layer. -/

theorem getD_map_lt {α β : Type _} (f : α → β) (l : List α) (i : ℕ)
    (d : α) (db : β) (h : i < l.length) :
    (l.map f).getD i db = f (l.getD i d) := by
  induction l generalizing i with
  | nil => simp at h
  | cons a t ih =>
    cases i with
    | zero => rfl
    | succ n =>
      simp only [List.map_cons, List.getD_cons_succ]
      exact ih n (by simpa using h)

theorem getD_take_lt {α : Type _} (l : List α) (k i : ℕ) (d : α)
    (h : i < k) : (l.take k).getD i d = l.getD i d := by
  simp [List.getD_eq_getElem?_getD, List.getElem?_take, h]

theorem getD_drop_add {α : Type _} (l : List α) (k i : ℕ) (d : α) :
    (l.drop k).getD i d = l.getD (k + i) d := by
  simp [List.getD_eq_getElem?_getD, List.getElem?_drop]

theorem getD_mem_of_lt {α : Type _} (l : List α) (i : ℕ) (d : α)
    (h : i < l.length) : l.getD i d ∈ l := by
  rw [List.getD_eq_getElem l d h]
  exact List.getElem_mem h

namespace TreeRs

/-- When the depth or minimum-radius guard fires, the tree-rs root recursion
returns its inputs unchanged, whatever the fuel. -/
theorem trr_guard_stop (o : GeomOracle) (fuel : ℕ)
    (cs : List BranchCrossSection) (idx : ℕ) (dir : Vec3) (d : ℕ)
    (rng : RngState) (a b c e f g : ℚ) (h : 25 < d ∨ g < 1/100) :
    generate_root_recursive_static o fuel cs idx dir d rng a b c e f g =
      (cs, rng) := by
  cases fuel with
  | zero => rfl
  | succ n =>
    simp only [generate_root_recursive_static]
    rw [if_pos h]

end TreeRs

namespace Engine

/-- The explicit one-step form of `root_segment_step`. -/
theorem root_segment_step_eq (base_center : Vec3)
    (base_rings : List ComponentRing) (params : RootParams)
    (cs : List BranchCrossSection) (segment : ℕ) :
    root_segment_step base_center base_rings params cs segment =
      push_child cs (if segment = 0 then 0 else cs.length - 1) cs.length ++
        [⟨base_center.sub ⟨0, ((segment : ℚ) + 1) * params.segment_length, 0⟩,
          default, 0,
          base_rings.map (fun trunk_ring =>
            (⟨trunk_ring.offset, trunk_ring.radius * (1 - (segment : ℚ) * (1/10)),
              RingType.MainTrunk⟩ : ComponentRing)), []⟩] := by
  unfold root_segment_step
  by_cases hsz : segment = 0 <;> simp [hsz]

theorem getD_zero_push_append_ne (cs : List BranchCrossSection) (i c : ℕ)
    (x : BranchCrossSection) (h0 : 0 < cs.length) (hi : i ≠ 0) :
    ((push_child cs i c ++ [x]).getD 0 default) = cs.getD 0 default := by
  rw [getD_append_left _ _ _ _ (by rw [length_push_child]; exact h0)]
  exact getD_push_child_ne cs i c 0 hi

theorem getD_zero_push_append_self (cs : List BranchCrossSection) (c : ℕ)
    (x : BranchCrossSection) (h0 : 0 < cs.length) :
    ((push_child cs 0 c ++ [x]).getD 0 default) =
      { cs.getD 0 default with
        children_indices := (cs.getD 0 default).children_indices ++ [c] } := by
  rw [getD_append_left _ _ _ _ (by rw [length_push_child]; exact h0)]
  exact getD_push_child_self cs 0 c h0

/-- With roots enabled, the engine's root system pushes exactly one extra
child index onto the base cross-section (the depth-0 root chain's head). -/
theorem root_system_generate_base_children (params : RootParams)
    (tree : TreeStructure) (he : params.enable = true)
    (hne : tree.cross_sections ≠ []) :
    ((root_system_generate params tree).cross_sections.getD 0
        default).children_indices.length =
      (tree.cross_sections.getD 0 default).children_indices.length + 1 := by
  have hL : 0 < tree.cross_sections.length := List.length_pos.2 hne
  unfold root_system_generate
  rw [if_neg (by simp [he])]
  simp only
  rw [show (List.range 3) = [0, 1, 2] from rfl]
  simp only [List.foldl_cons, List.foldl_nil]
  rw [root_segment_step_eq, root_segment_step_eq, root_segment_step_eq]
  rw [getD_zero_push_append_ne _ _ _ _
    (by simp only [List.length_append, length_push_child, List.length_singleton]; omega)
    (by rw [if_neg (by omega)]
        simp only [List.length_append, length_push_child, List.length_singleton]
        omega)]
  rw [getD_zero_push_append_ne _ _ _ _
    (by simp only [List.length_append, length_push_child, List.length_singleton]; omega)
    (by rw [if_neg (by omega)]
        simp only [List.length_append, length_push_child, List.length_singleton]
        omega)]
  rw [if_pos (rfl : (0 : ℕ) = 0)]
  rw [getD_zero_push_append_self _ _ _ hL]
  simp

end Engine

/-! The claim theorems.  Each theorem settles one claim of the
specification over the definitions above. -/

/-- Claim C2: the growth engine's per-depth segment cap is the documented
step function of the trunk-height parameter — depth 0-2 gives
`max(ceil(trunk_height / segment_length) + 10, 20)`, depth 3-5 gives 8,
6-8 gives 4, 9-12 gives 3, 13-16 gives 2, anything deeper gives 1 — and as
soon as `segments_at_current_depth` has reached the cap, the recursion
returns with the cross-section list and the RNG stream unchanged, creating
no child. -/
theorem segment_cap_step_function :
    (∀ (tp : TrunkParams) (d : ℕ), d ≤ 2 →
      Engine.max_segments_for_depth tp d =
        max ((⌈tp.height / tp.segment_length⌉).toNat + 10) 20) ∧
    (∀ (tp : TrunkParams) (d : ℕ), 3 ≤ d → d ≤ 5 →
      Engine.max_segments_for_depth tp d = 8) ∧
    (∀ (tp : TrunkParams) (d : ℕ), 6 ≤ d → d ≤ 8 →
      Engine.max_segments_for_depth tp d = 4) ∧
    (∀ (tp : TrunkParams) (d : ℕ), 9 ≤ d → d ≤ 12 →
      Engine.max_segments_for_depth tp d = 3) ∧
    (∀ (tp : TrunkParams) (d : ℕ), 13 ≤ d → d ≤ 16 →
      Engine.max_segments_for_depth tp d = 2) ∧
    (∀ (tp : TrunkParams) (d : ℕ), 17 ≤ d →
      Engine.max_segments_for_depth tp d = 1) ∧
    (∀ (o : GeomOracle) (bp : BranchingParams) (tp : TrunkParams)
        (gp : GeneralParams) (fuel : ℕ)
        (cs : List Engine.BranchCrossSection) (idx : ℕ) (dir : Vec3)
        (depth ssb sacd : ℕ) (rng : RngState),
      Engine.max_segments_for_depth tp depth ≤ sacd →
      Engine.generate_coordinated_recursive o bp tp gp fuel cs idx dir depth
        ssb sacd rng = (cs, rng)) := by
  refine ⟨?_, ?_, ?_, ?_, ?_, ?_, ?_⟩
  · intro tp d h
    unfold Engine.max_segments_for_depth
    rw [if_pos h]
  · intro tp d h1 h2
    unfold Engine.max_segments_for_depth
    rw [if_neg (by omega), if_pos h2]
  · intro tp d h1 h2
    unfold Engine.max_segments_for_depth
    rw [if_neg (by omega), if_neg (by omega), if_pos h2]
  · intro tp d h1 h2
    unfold Engine.max_segments_for_depth
    rw [if_neg (by omega), if_neg (by omega), if_neg (by omega), if_pos h2]
  · intro tp d h1 h2
    unfold Engine.max_segments_for_depth
    rw [if_neg (by omega), if_neg (by omega), if_neg (by omega),
      if_neg (by omega), if_pos h2]
  · intro tp d h1
    unfold Engine.max_segments_for_depth
    rw [if_neg (by omega), if_neg (by omega), if_neg (by omega),
      if_neg (by omega), if_neg (by omega)]
  · intro o bp tp gp fuel cs idx dir depth ssb sacd rng h
    exact Engine.gcr_cap_stop o bp tp gp fuel cs idx dir depth ssb sacd rng h

/-- Claim C2, witness: at depth 17 the cap of the sample trunk parameters
is at most 1, and with one segment already taken at that depth the
recursion returns its inputs unchanged. -/
theorem segment_cap_step_function_witness :
    Engine.max_segments_for_depth sample_params.trunk 17 ≤ 1 ∧
    Engine.generate_coordinated_recursive zero_oracle sample_params.branching
      sample_params.trunk sample_params.general 5 [] 0 ⟨0, 1, 0⟩ 17 0 1
      zero_rng = ([], zero_rng) :=
  ⟨by decide, segment_cap_step_function.2.2.2.2.2.2 zero_oracle
    sample_params.branching sample_params.trunk sample_params.general 5 [] 0
    ⟨0, 1, 0⟩ 17 0 1 zero_rng (by decide)⟩

/-- Claim C6: determinism in the seed — the engine generation pass depends
on its RNG source only through the stream seeded once from `general.seed`,
so two runs over the same parameter bundle whose seeding functions agree at
that seed produce identical trees, hence identical cross-section lists and
identical twig lists. -/
theorem seed_determinism (o : GeomOracle) (fuel : ℕ)
    (sr1 sr2 : ℕ → RngState) (p : TreeParameters)
    (h : sr1 p.general.seed = sr2 p.general.seed) :
    Engine.generate_tree o fuel sr1 p = Engine.generate_tree o fuel sr2 p ∧
    (Engine.generate_tree o fuel sr1 p).cross_sections =
      (Engine.generate_tree o fuel sr2 p).cross_sections ∧
    (Engine.generate_tree o fuel sr1 p).twigs =
      (Engine.generate_tree o fuel sr2 p).twigs := by
  have key : Engine.generate_tree o fuel sr1 p =
      Engine.generate_tree o fuel sr2 p := by
    unfold Engine.generate_tree
    rw [h]
  exact ⟨key, by rw [key], by rw [key]⟩

/-- Claim C6, witness: the determinism theorem applied to two syntactically
distinct but extensionally equal seeding functions at the sample bundle. -/
theorem seed_determinism_witness :
    (fun _ : ℕ => zero_rng) sample_params.general.seed =
      (fun n : ℕ => RngState.mk (fun _ => 0) (fun _ => 0) (n * 0))
        sample_params.general.seed ∧
    Engine.generate_tree zero_oracle 3 (fun _ => zero_rng) sample_params =
      Engine.generate_tree zero_oracle 3
        (fun n => RngState.mk (fun _ => 0) (fun _ => 0) (n * 0))
        sample_params :=
  ⟨by simp [zero_rng], (seed_determinism zero_oracle 3 (fun _ => zero_rng)
    (fun n => RngState.mk (fun _ => 0) (fun _ => 0) (n * 0)) sample_params
    (by simp [zero_rng])).1⟩

/-- Claim C7: structural mesh guarantees — the index-buffer length is six
per band step (one stitched band per parent-to-child edge, of width the
minimum of the two perimeter point counts, summed by `edge_band_sum`),
hence a multiple of three, and every index addresses a valid vertex: it is
below the vertex count, which is one third of the flat `f32` vertex-buffer
length. -/
theorem mesh_index_bounds (o : GeomOracle)
    (cross_sections : List TreeRs.BranchCrossSection) (res : ℕ) :
    (TreeRs.generate_mesh o cross_sections res).indices.length =
      6 * TreeRs.edge_band_sum o cross_sections res ∧
    (∃ m, (TreeRs.generate_mesh o cross_sections res).indices.length = 3 * m) ∧
    (∀ k ∈ (TreeRs.generate_mesh o cross_sections res).indices,
      k < (TreeRs.generate_mesh o cross_sections res).vertices.length) ∧
    (TreeRs.flatten_vec3
        (TreeRs.generate_mesh o cross_sections res).vertices).length =
      3 * (TreeRs.generate_mesh o cross_sections res).vertices.length := by
  obtain ⟨h1, h2, h3⟩ := TreeRs.generate_mesh_facts o cross_sections res
  exact ⟨h1, ⟨2 * TreeRs.edge_band_sum o cross_sections res, by omega⟩, h2,
    TreeRs.length_flatten_vec3 _⟩

/-- Claim C8: radius gating of twig placement — a ring whose radius exceeds
twice the (nonnegative) attachment threshold never receives twigs: the
per-ring visit returns the twig list and the RNG stream unchanged, for
every oracle, density and RNG stream. -/
theorem twig_radius_gate (o : GeomOracle)
    (twig_params : TwigGenerationParams) (base_center : Vec3) (i : ℕ)
    (cross_section : Engine.BranchCrossSection)
    (ring : Engine.ComponentRing) (st : List Twig × RngState)
    (h0 : 0 ≤ twig_params.attachment_threshold)
    (h : twig_params.attachment_threshold * 2 < ring.radius) :
    Engine.twig_ring_visit o twig_params base_center i cross_section ring
      st = st := by
  obtain ⟨off, rad, rt⟩ := ring
  simp only at h
  have h1 : ¬ (rad ≤ twig_params.attachment_threshold) := by nlinarith
  have h2 : ¬ (twig_params.attachment_threshold < rad ∧
      rad ≤ twig_params.attachment_threshold * 2) := by
    intro hc
    nlinarith [hc.2]
  cases rt with
  | Root r => rfl
  | MainTrunk =>
    simp only [Engine.twig_ring_visit]
    rw [if_neg h1, if_neg h2]
    simp
  | SideBranch =>
    simp only [Engine.twig_ring_visit]
    rw [if_neg h1, if_neg h2]
    simp

/-- Claim C8, witness: the gate theorem at threshold `0.05` and ring radius
`0.2`, the spec's example. -/
theorem twig_radius_gate_witness :
    (0 : ℚ) ≤ sample_twig_gen_params.attachment_threshold ∧
    sample_twig_gen_params.attachment_threshold * 2 <
      sample_gate_ring.radius ∧
    Engine.twig_ring_visit zero_oracle sample_twig_gen_params ⟨0, 0, 0⟩ 0
      default sample_gate_ring ([], zero_rng) = ([], zero_rng) :=
  ⟨by norm_num [sample_twig_gen_params],
   by norm_num [sample_twig_gen_params, sample_gate_ring],
   twig_radius_gate zero_oracle sample_twig_gen_params ⟨0, 0, 0⟩ 0 default
     sample_gate_ring ([], zero_rng) (by norm_num [sample_twig_gen_params])
     (by norm_num [sample_twig_gen_params, sample_gate_ring])⟩

/-- Claim C9: every indexed read accessor of the generated tree returns
`none` for any index at or beyond the corresponding collection's length —
out-of-range lookups yield an explicit absent result and never fail. -/
theorem accessor_out_of_range (tree : Engine.TreeStructure) (index : ℕ) :
    (Engine.rings_count tree ≤ index →
      Engine.ring_center tree index = none ∧
      Engine.ring_radius tree index = none) ∧
    (Engine.twigs_count tree ≤ index →
      Engine.twig_position tree index = none ∧
      Engine.twig_orientation_x tree index = none ∧
      Engine.twig_orientation_y tree index = none ∧
      Engine.twig_orientation_z tree index = none ∧
      Engine.twig_orientation_w tree index = none ∧
      Engine.twig_scale tree index = none ∧
      Engine.twig_type tree index = none) := by
  constructor
  · intro h
    have h1 : tree.cross_sections.length ≤ index := h
    have hg : tree.cross_sections[index]? = none := List.getElem?_eq_none h1
    exact ⟨by simp [Engine.ring_center, hg], by simp [Engine.ring_radius, hg]⟩
  · intro h
    have h1 : tree.twigs.length ≤ index := h
    have hg : tree.twigs[index]? = none := List.getElem?_eq_none h1
    exact ⟨by simp [Engine.twig_position, hg],
      by simp [Engine.twig_orientation_x, hg],
      by simp [Engine.twig_orientation_y, hg],
      by simp [Engine.twig_orientation_z, hg],
      by simp [Engine.twig_orientation_w, hg],
      by simp [Engine.twig_scale, hg],
      by simp [Engine.twig_type, hg]⟩

/-- Claim C9, witness: the accessors on the empty tree at index 0 all
return `none`. -/
theorem accessor_out_of_range_witness :
    Engine.ring_center ⟨[], []⟩ 0 = none ∧
    Engine.twig_scale ⟨[], []⟩ 0 = none :=
  ⟨((accessor_out_of_range ⟨[], []⟩ 0).1 (by decide)).1,
   (((accessor_out_of_range ⟨[], []⟩ 0).2 (by decide)).2.2.2.2.2.1)⟩

/-- Claim C10: every cross-section of a fully generated engine tree, and
every root cross-section appended by the tree-rs root engine, has a
non-empty component-ring list, so the growth engine's zero-rings stop
condition never fires on a generated tree. -/
theorem rings_always_nonempty :
    (∀ (o : GeomOracle) (fuel : ℕ) (seed_rng : ℕ → RngState)
        (p : TreeParameters) (j : ℕ),
      j < (Engine.generate_tree o fuel seed_rng p).cross_sections.length →
      ((Engine.generate_tree o fuel seed_rng p).cross_sections.getD j
          default).component_rings ≠ []) ∧
    (∀ (o : GeomOracle) (fuel : ℕ) (cs : List TreeRs.BranchCrossSection)
        (root_idx : ℕ) (rng : RngState) (rd rsp : ℚ) (dens : ℕ)
        (rsl rt slv : ℚ), root_idx < cs.length →
      ∀ j, cs.length ≤ j →
        j < ((TreeRs.generate_root_system o fuel cs root_idx rng rd rsp dens
            rsl rt slv).1).length →
        (((TreeRs.generate_root_system o fuel cs root_idx rng rd rsp dens rsl
            rt slv).1).getD j default).component_rings ≠ []) := by
  constructor
  · intro o fuel seed_rng p j hj
    exact Engine.generate_tree_rings_nonempty o fuel seed_rng p j hj
  · intro o fuel cs root_idx rng rd rsp dens rsl rt slv hidx j hj1 hj2
    exact ((TreeRs.generate_root_system_facts o fuel cs root_idx rng rd rsp
      dens rsl rt slv hidx).2.2.2.2.2 j hj1 hj2).2.2

/-- Claim C4: monotone radius taper — under the documented precondition
`radius_taper ≤ 1` (and nonnegative ring radii), every parent-to-child
ring edge shrinks or keeps the radius: the generic child-ring constructor,
the continue-as-trunk child rings, both sides of the branch-point ring
split (at the engine's segment taper), and the engine's root segments
never increase a ring radius. -/
theorem radius_taper_monotone :
    (∀ (parent : Engine.ComponentRing) (taper : ℚ), taper ≤ 1 →
      0 ≤ parent.radius →
      (Engine.create_child_ring_from_parent parent taper).radius ≤
        parent.radius) ∧
    (∀ (bp : BranchingParams) (tp : TrunkParams) (depth : ℕ)
        (next_center : Vec3) (rings : List Engine.ComponentRing),
      bp.radius_taper ≤ 1 → (∀ r ∈ rings, 0 ≤ r.radius) →
      ∀ i, i < (Engine.continue_child_rings bp tp depth next_center
          rings).length →
        ((Engine.continue_child_rings bp tp depth next_center rings).getD i
            default).radius ≤ (rings.getD i default).radius) ∧
    (∀ (bp : BranchingParams) (parent_rings : List Engine.ComponentRing),
      bp.radius_taper ≤ 1 → (∀ r ∈ parent_rings, 0 ≤ r.radius) →
      (∀ i, i < (Engine.split_rings_for_branch
            (1 - (1 - bp.radius_taper) * (15/100)) parent_rings).1.length →
        ((Engine.split_rings_for_branch (1 - (1 - bp.radius_taper) * (15/100))
            parent_rings).1.getD i default).radius ≤
          (parent_rings.getD i default).radius) ∧
      (∀ i, i < (Engine.split_rings_for_branch
            (1 - (1 - bp.radius_taper) * (15/100)) parent_rings).2.length →
        ((Engine.split_rings_for_branch (1 - (1 - bp.radius_taper) * (15/100))
            parent_rings).2.getD i default).radius ≤
          (parent_rings.getD (parent_rings.length - 1 + i) default).radius)) ∧
    (∀ (base_center : Vec3) (base_rings : List Engine.ComponentRing)
        (params : RootParams) (cs : List Engine.BranchCrossSection) (seg : ℕ),
      (∀ r ∈ base_rings, 0 ≤ r.radius) →
      ∀ i, i < ((Engine.root_segment_step base_center base_rings params cs
          seg).getD cs.length default).component_rings.length →
        (((Engine.root_segment_step base_center base_rings params cs
            seg).getD cs.length default).component_rings.getD i
            default).radius ≤ (base_rings.getD i default).radius) := by
  refine ⟨?_, ?_, ?_, ?_⟩
  · intro parent taper htaper hrad
    exact mul_le_of_le_one_right hrad htaper
  · intro bp tp depth next_center rings hrt hnn i hi
    have hi' : i < rings.length := by
      simpa [Engine.continue_child_rings] using hi
    have hr0 : 0 ≤ (rings.getD i default).radius :=
      hnn _ (getD_mem_of_lt _ _ _ hi')
    simp only [Engine.continue_child_rings]
    rw [getD_map_lt _ _ _ default _ hi']
    split_ifs <;>
      (simp only [Engine.create_child_ring_from_parent]
       exact mul_le_of_le_one_right hr0 (by nlinarith))
  · intro bp parent_rings hrt hnn
    have hst : 1 - (1 - bp.radius_taper) * (15/100) ≤ 1 := by nlinarith
    constructor
    · intro i hi
      unfold Engine.split_rings_for_branch at hi ⊢
      by_cases h1 : parent_rings.length = 1
      · rw [if_pos h1] at hi ⊢
        simp only [List.length_map] at hi
        have hr0 : 0 ≤ (parent_rings.getD i default).radius :=
          hnn _ (getD_mem_of_lt _ _ _ hi)
        rw [getD_map_lt _ _ _ default _ hi]
        exact mul_le_of_le_one_right hr0 (by nlinarith)
      · rw [if_neg h1] at hi ⊢
        simp only [List.length_map, List.length_take] at hi
        have hi2 : i < parent_rings.length - 1 := by omega
        have hi3 : i < parent_rings.length := by omega
        have hr0 : 0 ≤ (parent_rings.getD i default).radius :=
          hnn _ (getD_mem_of_lt _ _ _ hi3)
        rw [getD_map_lt _ _ _ default _ (by
          rw [List.length_take]; omega)]
        rw [getD_take_lt _ _ _ _ hi2]
        exact mul_le_of_le_one_right hr0 (by nlinarith)
    · intro i hi
      unfold Engine.split_rings_for_branch at hi ⊢
      by_cases h1 : parent_rings.length = 1
      · rw [if_pos h1] at hi ⊢
        simp only [List.length_map] at hi
        have hi' : i < parent_rings.length := hi
        have hieq : parent_rings.length - 1 + i = i := by omega
        rw [hieq]
        have hr0 : 0 ≤ (parent_rings.getD i default).radius :=
          hnn _ (getD_mem_of_lt _ _ _ hi')
        rw [getD_map_lt _ _ _ default _ hi']
        exact mul_le_of_le_one_right hr0 (by nlinarith)
      · rw [if_neg h1] at hi ⊢
        simp only [List.length_map, List.length_drop] at hi
        have hi3 : parent_rings.length - 1 + i < parent_rings.length := by
          omega
        have hr0 : 0 ≤ (parent_rings.getD (parent_rings.length - 1 + i)
            default).radius := hnn _ (getD_mem_of_lt _ _ _ hi3)
        rw [getD_map_lt _ _ _ default _ (by rw [List.length_drop]; omega)]
        rw [getD_drop_add]
        exact mul_le_of_le_one_right hr0 hst
  · intro base_center base_rings params cs seg hnn i hi
    rw [Engine.root_segment_step_eq,
      getD_append_right _ _ _ _ (by rw [Engine.length_push_child])] at hi ⊢
    simp only [Engine.length_push_child, Nat.sub_self,
      List.getD_cons_zero] at hi ⊢
    simp only [List.length_map] at hi
    have hr0 : 0 ≤ (base_rings.getD i default).radius :=
      hnn _ (getD_mem_of_lt _ _ _ hi)
    rw [getD_map_lt _ _ _ default _ hi]
    refine mul_le_of_le_one_right hr0 ?_
    have hcast : (0 : ℚ) ≤ (seg : ℚ) := Nat.cast_nonneg seg
    nlinarith

/-- Claim C4, witness: the child-ring constructor at taper `4/5` on a ring
of radius `1/5` does not increase the radius. -/
theorem radius_taper_monotone_witness :
    (4/5 : ℚ) ≤ 1 ∧ (0 : ℚ) ≤ sample_gate_ring.radius ∧
    (Engine.create_child_ring_from_parent sample_gate_ring (4/5)).radius ≤
      sample_gate_ring.radius :=
  ⟨by norm_num, by norm_num [sample_gate_ring],
   radius_taper_monotone.1 sample_gate_ring (4/5) (by norm_num)
     (by norm_num [sample_gate_ring])⟩

/-- Claim C1 (amended): with `general.max_depth = N ≥ 1` the engine
pipeline only ever holds cross-sections of depth `< N`; the tree-rs root
engine, however, appends root cross-sections whose depth lies between 1
and 26 regardless of `max_depth`, so the documented bound holds for the
engine but not for the tree-rs root growth. -/
theorem depth_bound_amended :
    (∀ (o : GeomOracle) (fuel : ℕ) (seed_rng : ℕ → RngState)
        (p : TreeParameters), 1 ≤ p.general.max_depth →
      ∀ j, j < (Engine.generate_tree o fuel seed_rng p).cross_sections.length →
        ((Engine.generate_tree o fuel seed_rng p).cross_sections.getD j
            default).depth < p.general.max_depth) ∧
    (∀ (o : GeomOracle) (fuel : ℕ) (cs : List TreeRs.BranchCrossSection)
        (root_idx : ℕ) (rng : RngState) (rd rsp : ℚ) (dens : ℕ)
        (rsl rt slv : ℚ), root_idx < cs.length →
      ∀ j, cs.length ≤ j →
        j < ((TreeRs.generate_root_system o fuel cs root_idx rng rd rsp dens
            rsl rt slv).1).length →
        1 ≤ (((TreeRs.generate_root_system o fuel cs root_idx rng rd rsp dens
            rsl rt slv).1).getD j default).depth ∧
        (((TreeRs.generate_root_system o fuel cs root_idx rng rd rsp dens
            rsl rt slv).1).getD j default).depth ≤ 26) := by
  constructor
  · intro o fuel seed_rng p hN j hj
    exact Engine.generate_tree_depth_lt o fuel seed_rng p hN j hj
  · intro o fuel cs root_idx rng rd rsp dens rsl rt slv hidx j hj1 hj2
    have H := (TreeRs.generate_root_system_facts o fuel cs root_idx rng rd
      rsp dens rsl rt slv hidx).2.2.2.2.2 j hj1 hj2
    exact ⟨H.1, H.2.1⟩

/-- Claim C1, witness: the amended depth bound instantiated at the sample
bundle with `max_depth = 1`. -/
theorem depth_bound_amended_witness :
    1 ≤ sample_params.general.max_depth ∧
    (∀ j, j < (Engine.generate_tree zero_oracle 3 (fun _ => zero_rng)
        sample_params).cross_sections.length →
      ((Engine.generate_tree zero_oracle 3 (fun _ => zero_rng)
          sample_params).cross_sections.getD j default).depth <
        sample_params.general.max_depth) :=
  ⟨by decide, depth_bound_amended.1 zero_oracle 3 (fun _ => zero_rng)
    sample_params (by decide)⟩

/-- Claim C1, counterexample: under a bundle with `general.max_depth = 1`
the tree-rs root engine still appends a cross-section of depth `1`:
`generate_root_system` never consults `max_depth`, so the claimed bound
`depth < max_depth` fails for the appended root cross-section. -/
theorem tree_rs_root_depth_cex :
    ¬ (∀ j, j < ((TreeRs.generate_root_system zero_oracle 30
          [sample_base_cross_section] 0 zero_rng 2 1 1 1 1 0).1).length →
        (((TreeRs.generate_root_system zero_oracle 30
            [sample_base_cross_section] 0 zero_rng 2 1 1 1 1 0).1).getD j
            default).depth < sample_params.general.max_depth) := by
  intro hclaim
  have key : 1 < ((TreeRs.generate_root_system zero_oracle 30
        [sample_base_cross_section] 0 zero_rng 2 1 1 1 1 0).1).length ∧
      (((TreeRs.generate_root_system zero_oracle 30
          [sample_base_cross_section] 0 zero_rng 2 1 1 1 1 0).1).getD 1
          default).depth = 1 := by
    unfold TreeRs.generate_root_system
    rw [show List.range 1 = [0] from rfl]
    simp only [List.foldl_cons, List.foldl_nil]
    unfold TreeRs.root_loop_step
    simp only
    rw [TreeRs.trr_guard_stop]
    · constructor
      · simp [TreeRs.push_child]
      · rw [getD_append_right _ _ _ _ (by simp [TreeRs.push_child])]
        simp [TreeRs.push_child]
    · right
      norm_num [sample_base_cross_section]
  have h2 := hclaim 1 key.1
  rw [key.2] at h2
  exact absurd h2 (by decide)

/-- Claim C5 (amended): during trunk/branch growth every cross-section has
at most two children (two only at a branch point); the root engines then
push additional children onto the base cross-section — exactly one in the
engine's root system and exactly `root_density` in the tree-rs root
engine — so after root attachment the base can exceed two children. -/
theorem children_count_amended :
    (∀ (o : GeomOracle) (fuel : ℕ) (bp : BranchingParams) (tp : TrunkParams)
        (gp : GeneralParams) (tree : Engine.TreeStructure) (rng : RngState),
      tree.cross_sections.length = 1 →
      (tree.cross_sections.getD 0 default).children_indices = [] →
      ∀ j, j < ((Engine.generate_branches o fuel bp tp gp tree
          rng).1).cross_sections.length →
        (((Engine.generate_branches o fuel bp tp gp tree
            rng).1).cross_sections.getD j default).children_indices.length ≤
          2) ∧
    (∀ (params : RootParams) (tree : Engine.TreeStructure),
      params.enable = true → tree.cross_sections ≠ [] →
      ((Engine.root_system_generate params tree).cross_sections.getD 0
          default).children_indices.length =
        (tree.cross_sections.getD 0 default).children_indices.length + 1) ∧
    (∀ (o : GeomOracle) (fuel : ℕ) (cs : List TreeRs.BranchCrossSection)
        (root_idx : ℕ) (rng : RngState) (rd rsp : ℚ) (dens : ℕ)
        (rsl rt slv : ℚ), root_idx < cs.length →
      (((TreeRs.generate_root_system o fuel cs root_idx rng rd rsp dens rsl
          rt slv).1).getD root_idx default).children_indices.length =
        (cs.getD root_idx default).children_indices.length + dens) := by
  refine ⟨?_, ?_, ?_⟩
  · intro o fuel bp tp gp tree rng h1 h2 j hj
    have H := Engine.generate_branches_facts o fuel bp tp gp tree rng h1
    by_cases hj0 : j = 0
    · subst hj0
      exact H.2.2.2 h2
    · exact (H.2.2.1 j (by omega) hj).2.2
  · intro params tree he hne
    exact Engine.root_system_generate_base_children params tree he hne
  · intro o fuel cs root_idx rng rd rsp dens rsl rt slv hidx
    exact (TreeRs.generate_root_system_facts o fuel cs root_idx rng rd rsp
      dens rsl rt slv hidx).2.2.1

/-- Claim C5, witness: with density 2, the tree-rs root engine pushes
exactly two children onto the base of the sample cross-section list. -/
theorem children_count_amended_witness :
    (0 : ℕ) <
      ([sample_base_cross_section] : List TreeRs.BranchCrossSection).length ∧
    (((TreeRs.generate_root_system zero_oracle 5 [sample_base_cross_section]
        0 zero_rng 2 1 2 1 1 0).1).getD 0 default).children_indices.length =
      (([sample_base_cross_section] : List TreeRs.BranchCrossSection).getD 0
          default).children_indices.length + 2 :=
  ⟨by simp, children_count_amended.2.2 zero_oracle 5
    [sample_base_cross_section] 0 zero_rng 2 1 2 1 1 0 (by simp)⟩

/-- Claim C5, counterexample: with root density 3 the tree-rs root engine
pushes three children onto the base cross-section, so the documented bound
of at most two children per cross-section fails after root attachment. -/
theorem base_children_overflow_cex :
    ¬ (∀ j, j < ((TreeRs.generate_root_system zero_oracle 30
          [sample_base_cross_section] 0 zero_rng 2 1 3 1 1 0).1).length →
        (((TreeRs.generate_root_system zero_oracle 30
            [sample_base_cross_section] 0 zero_rng 2 1 3 1 1 0).1).getD j
            default).children_indices.length ≤ 2) := by
  intro hclaim
  have H := TreeRs.generate_root_system_facts zero_oracle 30
    [sample_base_cross_section] 0 zero_rng 2 1 3 1 1 0 (by simp)
  have hlen := H.1
  have hchild := H.2.2.1
  have hbase : (([sample_base_cross_section] :
      List TreeRs.BranchCrossSection).getD 0
      default).children_indices.length = 0 := by
    simp [sample_base_cross_section]
  rw [hbase] at hchild
  have hl : 0 < ((TreeRs.generate_root_system zero_oracle 30
      [sample_base_cross_section] 0 zero_rng 2 1 3 1 1 0).1).length := by
    simp only [List.length_singleton] at hlen
    omega
  have h0 := hclaim 0 hl
  rw [hchild] at h0
  omega

/-- Claim C3, witness: buttressing `1.5` produces more than one trunk ring,
and the exact area identity holds for the sample trunk parameters. -/
theorem trunk_area_conservation_witness :
    1 < Engine.ring_count_of sample_rings_trunk_params.buttressing ∧
    sum_ring_areas (generate_trunk_rings_real sample_rings_trunk_params 0) =
      (pi32 : ℝ) * (1/2 * (sample_rings_trunk_params.size : ℝ)) *
        (1/2 * (sample_rings_trunk_params.size : ℝ)) := by
  have hb : 1 < Engine.ring_count_of sample_rings_trunk_params.buttressing := by
    unfold Engine.ring_count_of
    rw [if_neg (by norm_num [sample_rings_trunk_params])]
    rw [show (sample_rings_trunk_params.buttressing - 1/2) * 3 + 1 = 4 by
      norm_num [sample_rings_trunk_params]]
    rw [show max (4 : ℚ) 1 = 4 from by norm_num]
    norm_num
  exact ⟨hb, generate_trunk_rings_real_area sample_rings_trunk_params 0 hb⟩
